import Mathlib

/-!
Formal model of the vote-operator service (`src/index.js`).

The repository's business logic derives a content identifier
`id = keccak256(utf8(JSON.stringify(data)))`, signs the 32 raw identifier
bytes with the operator wallet under the Ethereum personal-message
convention, persists `(id, dataString, signature, signer)` rows with a
primary-key uniqueness constraint, and serves get/list/verify endpoints.

We embed the handlers shallowly: the MySQL table becomes a list of rows
threaded through the handlers, JavaScript strings become `List Char`,
byte sequences become `List Nat` with every element below 256, and the
JSON payloads become an inductive `JsonValue` (numbers restricted to
integers; JavaScript double formatting is out of scope of the
embedding).  Keccak-256 is implemented in full.  The secp256k1 ECDSA
primitive itself lives in the `ethers` dependency, not in this
repository, and is modelled symbolically from the spec's contract
(§4.3/§4.4): a 65-byte recoverable signature from which recovery
returns the signer's address exactly when the signed hash matches.
-/

namespace VoteOp

/-! ## Hex strings and bytes -/

/-- The sixteen lowercase hex digit characters, as produced by
`ethers.keccak256` and `ethers.hexlify`. -/
def hexChar (n : Nat) : Char :=
  if n < 10 then Char.ofNat (48 + n) else Char.ofNat (87 + n)

/-- Render one byte as two lowercase hex characters. -/
def byteToHex (b : Nat) : List Char :=
  [hexChar (b / 16), hexChar (b % 16)]

/-- Render a byte sequence as lowercase hex characters (no `0x`). -/
def bytesToHex (bs : List Nat) : List Char :=
  bs.flatMap byteToHex

/-- Render a byte sequence as a `0x`-prefixed lowercase hex string,
as `ethers.hexlify` / `ethers.keccak256` do. -/
def hex0x (bs : List Nat) : List Char :=
  '0' :: 'x' :: bytesToHex bs

/-- Numeric value of a hex digit character, accepting both cases;
`none` for a non-hex character. -/
def hexCharVal (c : Char) : Option Nat :=
  if 48 ≤ c.toNat ∧ c.toNat ≤ 57 then some (c.toNat - 48)
  else if 97 ≤ c.toNat ∧ c.toNat ≤ 102 then some (c.toNat - 87)
  else if 65 ≤ c.toNat ∧ c.toNat ≤ 70 then some (c.toNat - 55)
  else none

/-- Decode pairs of hex characters into bytes (`ethers.getBytes` on the
part after `0x`); `none` on an odd length or a non-hex character. -/
def hexPairsToBytes : List Char → Option (List Nat)
  | [] => some []
  | [_] => none
  | c1 :: c2 :: rest =>
    match hexCharVal c1, hexCharVal c2, hexPairsToBytes rest with
    | some h, some l, some bs => some ((16 * h + l) :: bs)
    | _, _, _ => none

/-- Decode a `0x`-prefixed hex string into bytes (`ethers.getBytes`). -/
def getBytes (s : List Char) : Option (List Nat) :=
  match s with
  | '0' :: 'x' :: rest => hexPairsToBytes rest
  | _ => none

/-- Total variant of `getBytes` used where the program has already
produced the string itself (defaulting to `[]` on malformed input). -/
def getBytesD (s : List Char) : List Nat :=
  (getBytes s).getD []

/-! ## UTF-8 and JavaScript string length -/

/-- UTF-8 encoding of a single character (`ethers.toUtf8Bytes`
per character). -/
def utf8Char (c : Char) : List Nat :=
  let v := c.toNat
  if v < 0x80 then [v]
  else if v < 0x800 then
    [0xC0 + v / 64, 0x80 + v % 64]
  else if v < 0x10000 then
    [0xE0 + v / 4096, 0x80 + v / 64 % 64, 0x80 + v % 64]
  else
    [0xF0 + v / 262144, 0x80 + v / 4096 % 64, 0x80 + v / 64 % 64, 0x80 + v % 64]

/-- UTF-8 encoding of a string (`ethers.toUtf8Bytes`). -/
def utf8Encode (s : List Char) : List Nat :=
  s.flatMap utf8Char

/-- The length JavaScript's `String.prototype.length` reports for one
code point: UTF-16 code units, so 2 for the supplementary planes. -/
def jsCharLen (c : Char) : Nat :=
  if c.toNat < 0x10000 then 1 else 2

/-- JavaScript string length (UTF-16 code units). -/
def jsLength (s : List Char) : Nat :=
  (s.map jsCharLen).sum

/-! ## Keccak-256

Implemented from the spec (§4.2): the identifier hash is Keccak-256,
"matching Ethereum's convention" — rate 1088, capacity 512, the original
Keccak `0x01 … 0x80` multi-rate padding, 32-byte output.  Lanes are
64-bit words represented as `Nat` reduced modulo `2 ^ 64`. -/

/-- Rotate a 64-bit lane left by `n` (for `n < 64`). -/
def rot64 (x n : Nat) : Nat :=
  ((x <<< n) ||| (x >>> (64 - n))) % (2 ^ 64)

/-- The first twelve Keccak-f[1600] round constants. -/
def keccakRCa : List Nat :=
  [0x0000000000000001,
   0x0000000000008082,
   0x800000000000808A,
   0x8000000080008000,
   0x000000000000808B,
   0x0000000080000001,
   0x8000000080008081,
   0x8000000000008009,
   0x000000000000008A,
   0x0000000000000088,
   0x0000000080008009,
   0x000000008000000A]

/-- The last twelve Keccak-f[1600] round constants. -/
def keccakRCb : List Nat :=
  [0x000000008000808B,
   0x800000000000008B,
   0x8000000000008089,
   0x8000000000008003,
   0x8000000000008002,
   0x8000000000000080,
   0x000000000000800A,
   0x800000008000000A,
   0x8000000080008081,
   0x8000000000008080,
   0x0000000080000001,
   0x8000000080008008]

/-- The 24 Keccak-f[1600] round constants. -/
def keccakRC : List Nat :=
  keccakRCa ++ keccakRCb

/-- The ρ rotation offsets of the first two and a half rows, indexed
by `x + 5 * y`. -/
def rhoOffA : List Nat :=
  [0,
   1,
   62,
   28,
   27,
   36,
   44,
   6,
   55,
   20,
   3,
   10]

/-- The ρ rotation offsets of the remaining lanes. -/
def rhoOffB : List Nat :=
  [43,
   25,
   39,
   41,
   45,
   15,
   21,
   8,
   18,
   2,
   61,
   56,
   14]

/-- The ρ rotation offsets, indexed by `x + 5 * y`. -/
def rhoOff : List Nat :=
  rhoOffA ++ rhoOffB

/-- Lane `(x, y)` of a 25-lane state. -/
def lane (s : List Nat) (x y : Nat) : Nat :=
  s.getD (x + 5 * y) 0

/-- The θ step of Keccak-f. -/
def thetaStep (s : List Nat) : List Nat :=
  let c := fun x => lane s x 0 ^^^ lane s x 1 ^^^ lane s x 2 ^^^ lane s x 3 ^^^ lane s x 4
  let d := fun x => c ((x + 4) % 5) ^^^ rot64 (c ((x + 1) % 5)) 1
  (List.range 25).map fun i => s.getD i 0 ^^^ d (i % 5)

/-- The combined ρ and π steps of Keccak-f: output lane `(x', y')` is the
source lane `(x' + 3 y' mod 5, x')` rotated by its ρ offset. -/
def rhoPiStep (s : List Nat) : List Nat :=
  (List.range 25).map fun i =>
    let xp := i % 5
    let yp := i / 5
    let x := (xp + 3 * yp) % 5
    let y := xp
    rot64 (lane s x y) (rhoOff.getD (x + 5 * y) 0)

/-- The χ step of Keccak-f. -/
def chiStep (s : List Nat) : List Nat :=
  (List.range 25).map fun i =>
    let x := i % 5
    let y := i / 5
    lane s x y ^^^ (((2 ^ 64 - 1) ^^^ lane s ((x + 1) % 5) y) &&& lane s ((x + 2) % 5) y)

/-- The ι step of Keccak-f: XOR the round constant into lane `(0, 0)`. -/
def iotaStep (rc : Nat) (s : List Nat) : List Nat :=
  match s with
  | [] => []
  | a :: rest => (a ^^^ rc) :: rest

/-- The full Keccak-f[1600] permutation: 24 rounds of θ, ρ, π, χ, ι. -/
def keccakF (s : List Nat) : List Nat :=
  keccakRC.foldl (fun st rc => iotaStep rc (chiStep (rhoPiStep (thetaStep st)))) s

/-- Original Keccak multi-rate padding to a multiple of the 136-byte
rate: append `0x01`, zero or more `0x00`, and `0x80` (a single `0x81`
byte when only one padding byte fits). -/
def keccakPad (msg : List Nat) : List Nat :=
  let padLen := 136 - msg.length % 136
  if padLen = 1 then msg ++ [0x81]
  else msg ++ 0x01 :: List.replicate (padLen - 2) 0 ++ [0x80]

/-- Interpret up to eight bytes as a little-endian 64-bit lane. -/
def bytesToLane (bs : List Nat) : Nat :=
  bs.foldr (fun b acc => acc * 256 + b) 0

/-- Split a padded message (whose length the padding has made a
positive multiple of 136) into its 136-byte blocks. -/
def splitBlocks (l : List Nat) : List (List Nat) :=
  (List.range (l.length / 136)).map fun i => (l.drop (136 * i)).take 136

/-- Absorb one 136-byte block: XOR its 17 lanes into the state and
apply the permutation. -/
def absorbBlock (st : List Nat) (block : List Nat) : List Nat :=
  keccakF ((List.range 25).map fun i =>
    st.getD i 0 ^^^ (if i < 17 then bytesToLane ((block.drop (8 * i)).take 8) else 0))

/-- Keccak-256 of a byte sequence: pad, absorb, and squeeze the first
32 bytes of the final state little-endian lane by lane. -/
def keccak256 (msg : List Nat) : List Nat :=
  let st := (splitBlocks (keccakPad msg)).foldl absorbBlock (List.replicate 25 0)
  (List.range 32).map fun i => (st.getD (i / 8) 0 >>> (8 * (i % 8))) % 256

/-! ## JSON values

The payload model for the `data` field: a JSON value as the transport
layer delivers it, object keys in property order.  Numbers are
restricted to integers (JavaScript double formatting is outside the
embedding). -/

/-- A JSON-compatible value tree. -/
inductive JsonValue where
  | null : JsonValue
  | bool : Bool → JsonValue
  | num : Int → JsonValue
  | str : List Char → JsonValue
  | arr : List JsonValue → JsonValue
  | obj : List (List Char × JsonValue) → JsonValue
deriving Repr

/-- The opening brace character. -/
def lbrace : Char := Char.ofNat 123

/-- The closing brace character. -/
def rbrace : Char := Char.ofNat 125

/-- Decimal digits of a natural number, most significant first
(fuel-indexed so that the kernel can evaluate it; the fuel `n + 1`
always suffices since `n / 10 < n`). -/
def natToDecAux : Nat → Nat → List Char
  | 0, _ => []
  | fuel + 1, n =>
    if n < 10 then [Char.ofNat (48 + n)]
    else natToDecAux fuel (n / 10) ++ [Char.ofNat (48 + n % 10)]

/-- Decimal digits of a natural number, most significant first. -/
def natToDec (n : Nat) : List Char :=
  natToDecAux (n + 1) n

/-- Decimal rendering of an integer, as JavaScript renders integral
numbers inside `JSON.stringify` output. -/
def intToDec (i : Int) : List Char :=
  if i < 0 then '-' :: natToDec i.natAbs else natToDec i.natAbs

/-- Four hex digits (lowercase), for the `\u00XX` escapes
`JSON.stringify` uses on control characters. -/
def hex4 (n : Nat) : List Char :=
  [hexChar (n / 4096 % 16), hexChar (n / 256 % 16),
   hexChar (n / 16 % 16), hexChar (n % 16)]

/-- The escape `JSON.stringify` applies to one string character:
`\"` and `\\`, the five short control escapes, `\u00XX` for the
remaining control characters, and the character itself otherwise. -/
def escChar (c : Char) : List Char :=
  if c = '"' then ['\\', '"']
  else if c = '\\' then ['\\', '\\']
  else if c = Char.ofNat 8 then ['\\', 'b']
  else if c = Char.ofNat 9 then ['\\', 't']
  else if c = Char.ofNat 10 then ['\\', 'n']
  else if c = Char.ofNat 12 then ['\\', 'f']
  else if c = Char.ofNat 13 then ['\\', 'r']
  else if c.toNat < 32 then '\\' :: 'u' :: hex4 c.toNat
  else [c]

/-- Escaped body of a JSON string literal. -/
def escapeStr (s : List Char) : List Char :=
  s.flatMap escChar

mutual

/-- Serialization `JSON.stringify` (no spacing argument): the exact character
sequence Node's serializer produces for a `JsonValue`, which is what
`handleCreateVote` hashes and stores (`src/index.js` line 747). -/
def stringifyVal : JsonValue → List Char
  | .null => ("null").data
  | .bool true => ("true").data
  | .bool false => ("false").data
  | .num i => intToDec i
  | .str s => '"' :: escapeStr s ++ ['"']
  | .arr xs => '[' :: stringifyArr xs ++ [']']
  | .obj ms => lbrace :: stringifyObj ms ++ [rbrace]

/-- Comma-separated serialization of array elements. -/
def stringifyArr : List JsonValue → List Char
  | [] => []
  | [x] => stringifyVal x
  | x :: rest => stringifyVal x ++ ',' :: stringifyArr rest

/-- Comma-separated serialization of object members. -/
def stringifyObj : List (List Char × JsonValue) → List Char
  | [] => []
  | [(k, v)] => '"' :: escapeStr k ++ '"' :: ':' :: stringifyVal v
  | (k, v) :: rest =>
    ('"' :: escapeStr k ++ '"' :: ':' :: stringifyVal v) ++ ',' :: stringifyObj rest

end

/-! ## JSON parsing

`JSON.parse`, as `handleGetVote` applies it to the stored canonical
text (`src/index.js` line 845).  Within the program the parser's inputs
are exactly `JSON.stringify` outputs, which contain no whitespace, so
the model omits inter-token whitespace skipping. -/

/-- Is this character an ASCII decimal digit? -/
def isDigit (c : Char) : Bool :=
  48 ≤ c.toNat && c.toNat ≤ 57

/-- Numeric value of a run of decimal digits. -/
def decodeDigits (ds : List Char) : Nat :=
  ds.foldl (fun a c => 10 * a + (c.toNat - 48)) 0

/-- Parse a nonempty run of decimal digits from the front of the input;
`none` when the input does not start with a digit. -/
def parseDigits (l : List Char) : Option (Nat × List Char) :=
  let ds := l.takeWhile isDigit
  if ds = [] then none else some (decodeDigits ds, l.dropWhile isDigit)

mutual

/-- Parse the body of a JSON string literal, after the opening quote:
characters and escapes up to the closing quote.  Raw control
characters are rejected, as `JSON.parse` rejects them. -/
def parseStrBody : List Char → Option (List Char × List Char)
  | [] => none
  | c :: r =>
    if c = '"' then some ([], r)
    else if c = '\\' then parseEsc r
    else if c.toNat < 32 then none
    else (parseStrBody r).map fun (s, r1) => (c :: s, r1)

/-- Parse one string escape, after the backslash. -/
def parseEsc : List Char → Option (List Char × List Char)
  | [] => none
  | c :: r =>
    if c = '"' then (parseStrBody r).map fun (s, r1) => ('"' :: s, r1)
    else if c = '\\' then (parseStrBody r).map fun (s, r1) => ('\\' :: s, r1)
    else if c = '/' then (parseStrBody r).map fun (s, r1) => ('/' :: s, r1)
    else if c = 'b' then (parseStrBody r).map fun (s, r1) => (Char.ofNat 8 :: s, r1)
    else if c = 't' then (parseStrBody r).map fun (s, r1) => (Char.ofNat 9 :: s, r1)
    else if c = 'n' then (parseStrBody r).map fun (s, r1) => (Char.ofNat 10 :: s, r1)
    else if c = 'f' then (parseStrBody r).map fun (s, r1) => (Char.ofNat 12 :: s, r1)
    else if c = 'r' then (parseStrBody r).map fun (s, r1) => (Char.ofNat 13 :: s, r1)
    else if c = 'u' then
      match r with
      | a :: b :: e :: d :: r1 =>
        match hexCharVal a, hexCharVal b, hexCharVal e, hexCharVal d with
        | some va, some vb, some ve, some vd =>
          (parseStrBody r1).map fun (s, r2) =>
            (Char.ofNat (4096 * va + 256 * vb + 16 * ve + vd) :: s, r2)
        | _, _, _, _ => none
      | _ => none
    else none

end

mutual

/-- Parse one JSON value from the front of the input (fuel-indexed),
dispatching on the first character as `JSON.parse` does. -/
def parseVal : Nat → List Char → Option (JsonValue × List Char)
  | 0, _ => none
  | fuel + 1, l =>
    match l with
    | [] => none
    | c :: r =>
      if c = 'n' then
        match r with
        | 'u' :: 'l' :: 'l' :: r1 => some (.null, r1)
        | _ => none
      else if c = 't' then
        match r with
        | 'r' :: 'u' :: 'e' :: r1 => some (.bool true, r1)
        | _ => none
      else if c = 'f' then
        match r with
        | 'a' :: 'l' :: 's' :: 'e' :: r1 => some (.bool false, r1)
        | _ => none
      else if c = '"' then (parseStrBody r).map fun (s, r1) => (.str s, r1)
      else if c = '[' then
        match r with
        | c2 :: r2 =>
          if c2 = ']' then some (.arr [], r2)
          else (parseElems fuel (c2 :: r2)).map fun (xs, r1) => (.arr xs, r1)
        | [] => none
      else if c = lbrace then
        match r with
        | c2 :: r2 =>
          if c2 = rbrace then some (.obj [], r2)
          else (parseMembers fuel (c2 :: r2)).map fun (ms, r1) => (.obj ms, r1)
        | [] => none
      else if c = '-' then (parseDigits r).map fun (n, r1) => (.num (-(n : Int)), r1)
      else if isDigit c then (parseDigits (c :: r)).map fun (n, r1) => (.num (n : Int), r1)
      else none

/-- Parse the elements of a nonempty JSON array, up to and including
the closing bracket. -/
def parseElems : Nat → List Char → Option (List JsonValue × List Char)
  | 0, _ => none
  | fuel + 1, l =>
    match parseVal fuel l with
    | some (v, ',' :: r) => (parseElems fuel r).map fun (xs, r1) => (v :: xs, r1)
    | some (v, ']' :: r) => some ([v], r)
    | _ => none

/-- Parse the members of a nonempty JSON object, up to and including
the closing brace. -/
def parseMembers : Nat → List Char → Option (List (List Char × JsonValue) × List Char)
  | 0, _ => none
  | fuel + 1, l =>
    match l with
    | '"' :: r =>
      match parseStrBody r with
      | some (k, ':' :: r1) =>
        match parseVal fuel r1 with
        | some (v, ',' :: r2) =>
          (parseMembers fuel r2).map fun (ms, r3) => ((k, v) :: ms, r3)
        | some (v, r2) =>
          match r2 with
          | c :: r3 => if c = rbrace then some ([(k, v)], r3) else none
          | [] => none
        | none => none
      | _ => none
    | _ => none

end

/-- Parsing `JSON.parse` on a complete text: the whole input must be consumed. -/
def jsonParse (l : List Char) : Option JsonValue :=
  match parseVal (l.length + 1) l with
  | some (v, []) => some v
  | _ => none

/-! ## Wallet, signing and recovery

`ethers.Wallet.signMessage` / `ethers.verifyMessage` live in the
`ethers` dependency, not in this repository.  The personal-message
hashing they apply is implemented exactly (real Keccak-256 over the
prefixed bytes); the secp256k1 group operation itself is modelled from
the spec (§4.3/§4.4): a deterministic 65-byte recoverable signature
`(r, s, v)` from which recovery returns the signer's address exactly
when the recovered hash matches the signed hash. -/

/-- Big-endian bytes of a natural number, `w` bytes wide. -/
def natToBytesBE (n w : Nat) : List Nat :=
  (List.range w).map fun i => (n >>> (8 * (w - 1 - i))) % 256

/-- Modelled from the spec: (§4.3) the operator's 20-byte public
address as a function of the 32-byte private key.  The elliptic-curve
public-key derivation is outside the repository; the model keeps the
Ethereum shape — the last 20 bytes of a Keccak-256 digest determined
by the key. -/
def addressBytes (sk : Nat) : List Nat :=
  (keccak256 (natToBytesBE sk 32)).drop 12

/-- The operator address rendered as a `0x`-prefixed 40-hex-digit
string (`wallet.address`, compared case-insensitively by the code). -/
def addressHex (sk : Nat) : List Char :=
  hex0x (addressBytes sk)

/-- The fixed personal-message tag `"\x19Ethereum Signed Message:\n"`. -/
def personalTag : List Char :=
  ("\x19Ethereum Signed Message:\n").data

/-- The Ethereum personal-message hash: Keccak-256 of the fixed tag,
the decimal message length, and the raw message bytes — for a 32-byte
identifier, exactly `keccak256("\x19Ethereum Signed Message:\n32" ++ id)`. -/
def personalMessageHash (msg : List Nat) : List Nat :=
  keccak256 (utf8Encode personalTag ++ utf8Encode (natToDec msg.length) ++ msg)

/-- Modelled from the spec: (§4.3) a 65-byte recoverable ECDSA
signature over a 32-byte hash.  The symbolic `(r, s, v)` carries the
signed hash in `r`, the signer's address zero-padded in `s`, and
`v = 27`; recovery (below) inverts it exactly on the signed hash. -/
def ecdsaSignRaw (sk : Nat) (h : List Nat) : List Nat :=
  h.take 32 ++ (List.replicate 12 0 ++ addressBytes sk) ++ [27]

/-- Modelled from the spec: (§4.4) address recovery from a hash and a
65-byte recoverable signature; fails on a malformed signature or a
hash other than the signed one. -/
def ecdsaRecover (h sig : List Nat) : Option (List Nat) :=
  if sig.length = 65 ∧ sig.take 32 = h then some (((sig.drop 32).take 32).drop 12)
  else none

/-- Signing `wallet.signMessage(bytes)`: personal-message hash, sign, render as
a `0x`-prefixed 130-hex-digit string. -/
def signMessageHex (sk : Nat) (msg : List Nat) : List Char :=
  hex0x (ecdsaSignRaw sk (personalMessageHash msg))

/-- Recovery `ethers.verifyMessage(bytes, signature)`: decode the hex signature,
recover over the personal-message hash, render the recovered address;
`none` models the throw on a malformed signature. -/
def verifyMessageHex (msg : List Nat) (sig : List Char) : Option (List Char) :=
  match getBytes sig with
  | some bs => (ecdsaRecover (personalMessageHash msg) bs).map hex0x
  | none => none

/-! ## JavaScript semantics helpers -/

/-- JavaScript truthiness of a JSON value. -/
def jsTruthy : JsonValue → Bool
  | .null => false
  | .bool b => b
  | .num n => !(n == 0)
  | .str s => !s.isEmpty
  | .arr _ => true
  | .obj _ => true

/-- Truthiness of a possibly-absent field (`undefined` is falsy). -/
def jsTruthyOpt : Option JsonValue → Bool
  | none => false
  | some v => jsTruthy v

/-- Does `typeof v` evaluate to `"object"`?  True for objects, arrays
and `null`. -/
def typeofObject : JsonValue → Bool
  | .null => true
  | .arr _ => true
  | .obj _ => true
  | _ => false

/-- ASCII lowercasing of one character (`String.prototype.toLowerCase`
on the hex/address alphabet). -/
def toLowerChar (c : Char) : Char :=
  if 65 ≤ c.toNat ∧ c.toNat ≤ 90 then Char.ofNat (c.toNat + 32) else c

/-- ASCII lowercasing of a string. -/
def toLowerStr (s : List Char) : List Char :=
  s.map toLowerChar

/-- Is the character a hex digit of either case? -/
def isHexDigitAny (c : Char) : Bool :=
  (hexCharVal c).isSome

/-- The check `ethers.isHexString(s)` with no length argument: `0x` followed by
any run of hex digits of either case. -/
def isHexStringAny (s : List Char) : Bool :=
  match s with
  | '0' :: 'x' :: rest => rest.all isHexDigitAny
  | _ => false

/-- The check `ethers.isHexString(s, 32)` as `handleGetVote` calls it
(`src/index.js` line 823): `0x` followed by exactly 64 hex digits of
either case. -/
def isHexString32 (s : List Char) : Bool :=
  match s with
  | '0' :: 'x' :: rest => rest.all isHexDigitAny && rest.length == 64
  | _ => false

/-- The spec's inbound-get pattern, for comparison with the code's
check.  Modelled from the spec: `^0x[0-9a-f]{64}$` — lowercase hex
digits only. -/
def specIdPattern (s : List Char) : Bool :=
  match s with
  | '0' :: 'x' :: rest =>
    rest.all (fun c => isDigit c || (97 ≤ c.toNat && c.toNat ≤ 102)) && rest.length == 64
  | _ => false

/-- EIP-55 checksum casing of a 40-character lowercase hex address
body. -/
def checksumBody (lower40 : List Char) : List Char :=
  let h := keccak256 (utf8Encode lower40)
  (List.range 40).map fun i =>
    let c := lower40.getD i ' '
    let nib := ((h.getD (i / 2) 0) >>> (if i % 2 = 0 then 4 else 0)) % 16
    if 97 ≤ c.toNat ∧ 8 ≤ nib then Char.ofNat (c.toNat - 32) else c

/-- The check `ethers.isAddress`: `0x` plus 40 hex digits, rejecting mixed-case
bodies whose EIP-55 checksum casing does not match. -/
def isAddress (s : List Char) : Bool :=
  match s with
  | '0' :: 'x' :: rest =>
    rest.length == 40 && rest.all isHexDigitAny &&
      (rest.all (fun c => !(65 ≤ c.toNat && c.toNat ≤ 90)) ||
       rest.all (fun c => !(97 ≤ c.toNat && c.toNat ≤ 122)) ||
       rest == checksumBody (toLowerStr rest))
  | _ => false

/-! ## The record store

The `votes` table becomes a list of rows in insertion order; the
primary key on `id` makes `INSERT` fail with `ER_DUP_ENTRY` exactly
when a row with the same identifier exists. -/

/-- One row of the `votes` table (the first variant has no `signer`
column; its rows carry `[]` there). -/
structure VoteRecord where
  id : List Char
  data : List Char
  signature : List Char
  signer : List Char
deriving Repr, DecidableEq

/-- The table state. -/
abbrev Store := List VoteRecord

/-- The storage-driver error the code inspects. -/
inductive DbError where
  | dupEntry
deriving Repr, DecidableEq

/-- The statement `INSERT INTO votes ...` under the primary-key constraint:
`ER_DUP_ENTRY` when the identifier is already present, else append. -/
def insertVote (s : Store) (r : VoteRecord) : Except DbError Store :=
  if s.any (fun q => q.id == r.id) then .error .dupEntry else .ok (s ++ [r])

/-! ## Requests, responses and handlers -/

/-- The body of a create / verify request:
`{data, signature, signer}`, each field absent or an arbitrary JSON
value. -/
structure CreateRequest where
  data : Option JsonValue
  signature : Option JsonValue
  signer : Option JsonValue
deriving Repr

/-- The error codes the handlers emit. -/
inductive ErrCode where
  | MISSING_DATA
  | INVALID_DATA_TYPE
  | DATA_TOO_LARGE
  | INVALID_SIGNATURE_TYPE
  | INVALID_SIGNATURE_FORMAT
  | INVALID_SIGNER_ADDRESS
  | INVALID_SIGNATURE
  | DUPLICATE_VOTE
  | INTERNAL_ERROR
  | INVALID_ID
  | VOTE_NOT_FOUND
  | MISSING_SIGNATURE
  | SIGNATURE_VERIFICATION_FAILED
deriving Repr, DecidableEq

/-- A handler's JSON response, keyed by shape. -/
inductive Resp where
  | err (status : Nat) (code : ErrCode)
  | created (id signature signer operator : List Char)
  | gotVote (id : List Char) (data : JsonValue) (signature signer : List Char)
  | voteList (rows : List (List Char)) (limit offset : Int)
  | verified (recovered dataHash : List Char)
deriving Repr

/-- The content identifier:
`ethers.keccak256(ethers.toUtf8Bytes(JSON.stringify(data)))`
(`src/index.js` lines 747–748). -/
def deriveId (d : JsonValue) : List Char :=
  hex0x (keccak256 (utf8Encode (stringifyVal d)))

/-- Outcome of `validateSignature` (`src/index.js` lines 665–697):
`valid` carries the recovered signer, `signerMismatch` the recovered
signer that failed the expected-signer comparison, and `failed` the
catch branch (`recoveredSigner: null`). -/
inductive VerifyOutcome where
  | valid (recovered : List Char)
  | signerMismatch (recovered : List Char)
  | failed
deriving Repr, DecidableEq

/-- The helper `validateSignature(data, signature, expectedSigner)`: hash the
serialized data, recover the signer via the personal-message
convention, and compare case-insensitively against the expected signer
when one is (truthily) supplied.  A non-string signature or expected
signer makes the library throw into the catch branch. -/
def validateSignature (data : JsonValue) (sig : JsonValue)
    (expected : Option JsonValue) : VerifyOutcome :=
  let h := keccak256 (utf8Encode (stringifyVal data))
  match sig with
  | .str sgs =>
    match verifyMessageHex h sgs with
    | none => .failed
    | some rec =>
      match expected with
      | some e =>
        if jsTruthy e then
          match e with
          | .str es =>
            if toLowerStr rec = toLowerStr es then .valid rec else .signerMismatch rec
          | _ => .failed
        else .valid rec
      | none => .valid rec
  | _ => .failed

/-- The signer-field check shared by the third variant's middleware:
a truthy `signer` must satisfy `ethers.isAddress`. -/
def signerFieldCheck (signer : Option JsonValue) : Option Resp :=
  match signer with
  | some sgr =>
    if jsTruthy sgr then
      match sgr with
      | .str a => if isAddress a then none else some (.err 400 .INVALID_SIGNER_ADDRESS)
      | _ => some (.err 400 .INVALID_SIGNER_ADDRESS)
    else none
  | none => none

/-- The third variant's `validateVoteData` middleware
(`src/index.js` lines 624–663): missing/type checks on `data`, then
type/format checks on a truthy `signature`, then the address check on
a truthy `signer`; `none` means `next()`. -/
def validateVoteData (req : CreateRequest) : Option Resp :=
  match req.data with
  | none => some (.err 400 .MISSING_DATA)
  | some d =>
    if !jsTruthy d then some (.err 400 .MISSING_DATA)
    else if !typeofObject d then some (.err 400 .INVALID_DATA_TYPE)
    else
      match req.signature with
      | some sg =>
        if jsTruthy sg then
          match sg with
          | .str sgs =>
            if !isHexStringAny sgs then some (.err 400 .INVALID_SIGNATURE_FORMAT)
            else signerFieldCheck req.signer
          | _ => some (.err 400 .INVALID_SIGNATURE_TYPE)
        else signerFieldCheck req.signer
      | none => signerFieldCheck req.signer

/-- The third variant's `handleCreateVote` (`src/index.js` lines
742–817): derive the identifier, require and validate the caller
signature, sign the identifier bytes with the operator key, insert,
and map `ER_DUP_ENTRY` to a 409 conflict.  An absent `data` makes
`toUtf8Bytes(undefined)` throw into the catch-all 500. -/
def handleCreateVote (opKey : Nat) (req : CreateRequest) (s : Store) : Resp × Store :=
  match req.data with
  | none => (.err 500 .INTERNAL_ERROR, s)
  | some d =>
    let ds := stringifyVal d
    let id := deriveId d
    match req.signature with
    | some sigJ =>
      if jsTruthy sigJ then
        match validateSignature d sigJ req.signer with
        | .failed => (.err 400 .INVALID_SIGNATURE, s)
        | .signerMismatch _ => (.err 400 .INVALID_SIGNATURE, s)
        | .valid recAddr =>
          let opSig := signMessageHex opKey (getBytesD id)
          match insertVote s ⟨id, ds, opSig, recAddr⟩ with
          | .ok s1 => (.created id opSig recAddr (addressHex opKey), s1)
          | .error _ => (.err 409 .DUPLICATE_VOTE, s)
      else (.err 400 .INVALID_SIGNATURE, s)
    | none => (.err 400 .INVALID_SIGNATURE, s)

/-- The `POST /votes` pipeline of the third variant: middleware, then
handler. -/
def postVotes (opKey : Nat) (req : CreateRequest) (s : Store) : Resp × Store :=
  match validateVoteData req with
  | some r => (r, s)
  | none => handleCreateVote opKey req s

/-- The first variant's `validateVoteData` middleware (`src/index.js`
lines 149–176): missing/type checks, then the 1 MB limit measured by
JavaScript string length (`JSON.stringify(data).length > 1000000`). -/
def validateVoteDataV1 (data : Option JsonValue) : Option Resp :=
  match data with
  | none => some (.err 400 .MISSING_DATA)
  | some d =>
    if !jsTruthy d then some (.err 400 .MISSING_DATA)
    else if !typeofObject d then some (.err 400 .INVALID_DATA_TYPE)
    else if 1000000 < jsLength (stringifyVal d) then some (.err 400 .DATA_TOO_LARGE)
    else none

/-- The first variant's `handleCreateVote` (`src/index.js` lines
215–256): no caller signature; derive, sign with the operator key,
insert, map `ER_DUP_ENTRY` to 409. -/
def handleCreateVoteV1 (opKey : Nat) (data : Option JsonValue) (s : Store) : Resp × Store :=
  match data with
  | none => (.err 500 .INTERNAL_ERROR, s)
  | some d =>
    let ds := stringifyVal d
    let id := deriveId d
    let opSig := signMessageHex opKey (getBytesD id)
    match insertVote s ⟨id, ds, opSig, []⟩ with
    | .ok s1 => (.created id opSig [] (addressHex opKey), s1)
    | .error _ => (.err 409 .DUPLICATE_VOTE, s)

/-- The `POST /votes` pipeline of the first variant. -/
def postVotesV1 (opKey : Nat) (data : Option JsonValue) (s : Store) : Resp × Store :=
  match validateVoteDataV1 data with
  | some r => (r, s)
  | none => handleCreateVoteV1 opKey data s

/-- The handler `handleGetVote` (`src/index.js` lines 819–858).  The returned
`Bool` records whether the store was queried: the identifier check
returns before any database access.  A stored text that fails to parse
would throw into the catch-all 500. -/
def handleGetVote (idp : List Char) (s : Store) : Resp × Bool :=
  if idp.isEmpty || !isHexString32 idp then (.err 400 .INVALID_ID, false)
  else
    match s.find? (fun r => r.id == idp) with
    | none => (.err 404 .VOTE_NOT_FOUND, true)
    | some r =>
      match jsonParse r.data with
      | some dv => (.gotVote r.id dv r.signature r.signer, true)
      | none => (.err 500 .INTERNAL_ERROR, true)

/-- JavaScript `parseInt` on a query parameter: skip leading
whitespace, optional sign, longest decimal-digit run; `none` is `NaN`. -/
def parseIntJS (s : List Char) : Option Int :=
  let t := s.dropWhile fun c =>
    c == ' ' || c == Char.ofNat 9 || c == Char.ofNat 10 || c == Char.ofNat 13
  match t with
  | '-' :: r => (parseDigits r).map fun (n, _) => -(n : Int)
  | '+' :: r => (parseDigits r).map fun (n, _) => (n : Int)
  | _ => (parseDigits t).map fun (n, _) => (n : Int)

/-- Defaulting `x || d` after `parseInt`: `NaN` and `0` are falsy and fall back
to the default. -/
def orDefaultJS (v : Option Int) (d : Int) : Int :=
  match v with
  | some n => if n = 0 then d else n
  | none => d

/-- The effective limit `handleGetAllVotes` passes to the store
(`src/index.js` line 862): `Math.min(parseInt(req.query.limit) || 10, 100)`. -/
def effectiveLimit (q : Option (List Char)) : Int :=
  min (orDefaultJS (q.bind parseIntJS) 10) 100

/-- The effective offset (`src/index.js` line 863):
`parseInt(req.query.offset) || 0`. -/
def effectiveOffset (q : Option (List Char)) : Int :=
  orDefaultJS (q.bind parseIntJS) 0

/-- The handler `handleGetAllVotes` (`src/index.js` lines 860–885): compute the
effective pagination parameters and query newest-first.  A negative
`LIMIT`/`OFFSET` placeholder is a MySQL syntax error, surfaced by the
catch block as a 500. -/
def handleGetAllVotes (ql qo : Option (List Char)) (s : Store) : Resp :=
  let l := effectiveLimit ql
  let o := effectiveOffset qo
  if l < 0 ∨ o < 0 then .err 500 .INTERNAL_ERROR
  else .voteList ((((s.reverse).drop o.toNat).take l.toNat).map (fun r => r.id)) l o

/-- The handler `handleVerifySignature` (`src/index.js` lines 887–928): require a
truthy signature, validate it against the serialized data, and return
the recovered signer and data hash; no database statement appears
anywhere in the handler, so the store passes through untouched. -/
def handleVerifySignature (req : CreateRequest) (s : Store) : Resp × Store :=
  match req.signature with
  | some sg =>
    if jsTruthy sg then
      match req.data with
      | none => (.err 400 .SIGNATURE_VERIFICATION_FAILED, s)
      | some d =>
        match validateSignature d sg req.signer with
        | .valid rec => (.verified rec (deriveId d), s)
        | _ => (.err 400 .SIGNATURE_VERIFICATION_FAILED, s)
    else (.err 400 .MISSING_SIGNATURE, s)
  | none => (.err 400 .MISSING_SIGNATURE, s)

/-- The `POST /verify-signature` pipeline: the same `validateVoteData`
middleware, then the verification handler. -/
def verifySigRoute (req : CreateRequest) (s : Store) : Resp × Store :=
  match validateVoteData req with
  | some r => (r, s)
  | none => handleVerifySignature req s

/-- Structural induction for the nested `JsonValue` type, with
membership hypotheses for the containers. -/
def JsonValue.forallRec {motive : JsonValue → Prop}
    (hnull : motive .null)
    (hbool : ∀ b, motive (.bool b))
    (hnum : ∀ n, motive (.num n))
    (hstr : ∀ s, motive (.str s))
    (harr : ∀ xs, (∀ v ∈ xs, motive v) → motive (.arr xs))
    (hobj : ∀ ms, (∀ kv ∈ ms, motive kv.2) → motive (.obj ms)) :
    ∀ v, motive v
  | .null => hnull
  | .bool b => hbool b
  | .num n => hnum n
  | .str s => hstr s
  | .arr xs => harr xs fun v hv =>
      JsonValue.forallRec hnull hbool hnum hstr harr hobj v
  | .obj ms => hobj ms fun kv hkv =>
      JsonValue.forallRec hnull hbool hnum hstr harr hobj kv.2
termination_by v => sizeOf v
decreasing_by
  · have := List.sizeOf_lt_of_mem hv
    simp only [JsonValue.arr.sizeOf_spec]
    omega
  · have h1 := List.sizeOf_lt_of_mem hkv
    have h2 : sizeOf kv.2 < sizeOf kv := by
      obtain ⟨a, b⟩ := kv
      simp only [Prod.mk.sizeOf_spec]
      omega
    simp only [JsonValue.obj.sizeOf_spec]
    omega

/-- The continuation after a serialized number must not begin with a
digit (in the round trip it is empty or starts with a delimiter). -/
def noDigitHead : List Char → Bool
  | [] => true
  | c :: _ => !isDigit c

/-- The round-trip property of one JSON value: parsing its serialized
form (with any non-digit-headed continuation) recovers it exactly. -/
def RT (v : JsonValue) : Prop :=
  ∀ f rest, (stringifyVal v).length + 1 ≤ f → noDigitHead rest = true →
    parseVal f (stringifyVal v ++ rest) = some (v, rest)

/-! ## Auxiliary definitions for stating the claims -/

mutual

/-- Structural (order-sensitive) equality test on JSON values. -/
def jsonBeq : JsonValue → JsonValue → Bool
  | .null, .null => true
  | .bool a, .bool b => a == b
  | .num a, .num b => a == b
  | .str a, .str b => a == b
  | .arr xs, .arr ys => jsonBeqList xs ys
  | .obj ms, .obj ns => jsonBeqObj ms ns
  | _, _ => false

/-- Pairwise equality of element lists. -/
def jsonBeqList : List JsonValue → List JsonValue → Bool
  | [], [] => true
  | x :: xs, y :: ys => jsonBeq x y && jsonBeqList xs ys
  | _, _ => false

/-- Pairwise equality of member lists. -/
def jsonBeqObj : List (List Char × JsonValue) → List (List Char × JsonValue) → Bool
  | [], [] => true
  | (k1, v1) :: ms, (k2, v2) :: ns => k1 == k2 && jsonBeq v1 v2 && jsonBeqObj ms ns
  | _, _ => false

end

/-- Lexicographic key order used to bring object members into a
canonical order. -/
def keyLe : List Char → List Char → Bool
  | [], _ => true
  | _ :: _, [] => false
  | a :: as, b :: bs =>
    if a.toNat < b.toNat then true
    else if b.toNat < a.toNat then false
    else keyLe as bs

/-- Ordered insertion of a member by key. -/
def insertMember (kv : List Char × JsonValue) :
    List (List Char × JsonValue) → List (List Char × JsonValue)
  | [] => [kv]
  | m :: ms => if keyLe kv.1 m.1 then kv :: m :: ms else m :: insertMember kv ms

/-- Insertion sort of object members by key. -/
def sortMembers : List (List Char × JsonValue) → List (List Char × JsonValue)
  | [] => []
  | m :: ms => insertMember m (sortMembers ms)

mutual

/-- Key-order canonical form of a JSON value: object members sorted by
key at every level, arrays untouched. -/
def canonicalize : JsonValue → JsonValue
  | .null => .null
  | .bool b => .bool b
  | .num n => .num n
  | .str s => .str s
  | .arr xs => .arr (canonList xs)
  | .obj ms => .obj (sortMembers (canonObj ms))

/-- Canonical forms of array elements. -/
def canonList : List JsonValue → List JsonValue
  | [] => []
  | x :: xs => canonicalize x :: canonList xs

/-- Canonical forms of member values. -/
def canonObj : List (List Char × JsonValue) → List (List Char × JsonValue)
  | [] => []
  | (k, v) :: ms => (k, canonicalize v) :: canonObj ms

end

/-- Semantic equality of JSON value trees as the spec's determinism
property quantifies it: equal as value trees, possibly differing in
object key order at any depth. -/
def jsonSemEq (a b : JsonValue) : Bool :=
  jsonBeq (canonicalize a) (canonicalize b)

/-- Was the response a 201 "created"? -/
def isCreated : Resp → Bool
  | .created _ _ _ _ => true
  | _ => false

/-- The identifier of a created response (`[]` otherwise). -/
def respId : Resp → List Char
  | .created id _ _ _ => id
  | _ => []

/-- Was the response a 200 get success? -/
def isGotVote : Resp → Bool
  | .gotVote _ _ _ _ => true
  | _ => false

/-- The parsed `data` field of a get response. -/
def respGotData : Resp → Option JsonValue
  | .gotVote _ d _ _ => some d
  | _ => none

/-- The signature invariant of a stored row: the stored
`operatorSignature` is the operator's personal-message signature over
the raw identifier bytes, is a 132-character hex string, and recovers
to the operator's address. -/
def recordOk (opKey : Nat) (r : VoteRecord) : Prop :=
  r.signature = signMessageHex opKey (getBytesD r.id) ∧
  r.signature.length = 132 ∧
  verifyMessageHex (getBytesD r.id) r.signature = some (addressHex opKey)

/-- Two payloads that are equal value trees up to object key order. -/
def vKeyOrder1 : JsonValue :=
  .obj [(("a").data, .num 1), (("b").data, .num 2)]

/-- The same members as `vKeyOrder1`, ingested in the other order. -/
def vKeyOrder2 : JsonValue :=
  .obj [(("b").data, .num 2), (("a").data, .num 1)]

/-- A well-formed identifier containing one uppercase hex digit. -/
def upperHexId : List Char :=
  '0' :: 'x' :: (List.replicate 63 'a' ++ ['A'])

/-- A payload whose canonical UTF-8 encoding exceeds 1,000,000 bytes
while its serialized JavaScript string length stays far below the
limit (each `é` is one UTF-16 code unit but two UTF-8 bytes). -/
def wideStr : JsonValue :=
  .obj [(("a").data, .str (List.replicate 500000 'é'))]

/-- A payload whose serialized string length exceeds the 1,000,000
limit. -/
def bigStr : JsonValue :=
  .obj [(("a").data, .str (List.replicate 1000001 'x'))]

/-- A sample payload used to exercise the pipeline at concrete
inputs. -/
def sampleData : JsonValue :=
  .obj [(("proposal_id").data, .str (("prop_123").data)),
        (("choice").data, .str (("yes").data))]

/-- A create request for `sampleData` carrying a caller signature
produced by the submitter key 2. -/
def sampleReq : CreateRequest :=
  ⟨some sampleData,
   some (.str (signMessageHex 2 (getBytesD (deriveId sampleData)))),
   none⟩

/-! ## Basic facts: characters, hex, Keccak shapes -/

theorem toNat_ofNat_valid {n : Nat} (h : n < 55296) : (Char.ofNat n).toNat = n := by
  have hv : n.isValidChar := Or.inl h
  simp only [Char.ofNat, hv, dite_true, Char.ofNatAux, Char.toNat, UInt32.toNat]
  simp

set_option maxRecDepth 100000 in
/-- Sanity of the Keccak-256 embedding against the standard test
vectors for the empty input and the three-byte input "abc". -/
theorem keccak256_vectors :
    bytesToHex (keccak256 []) =
      ("c5d2460186f7233c927e7db2dcc703c0e500b653ca82273b7bfad8045d85a470").data ∧
    bytesToHex (keccak256 (utf8Encode (("abc").data))) =
      ("4e03657aea45a94fc7d47ba826c8d667c0d1e6e33a64a036ec44f58fa12d6c45").data := by
  constructor <;> decide

theorem keccak256_length (m : List Nat) : (keccak256 m).length = 32 := by
  simp [keccak256]

theorem keccak256_lt (m : List Nat) : ∀ b ∈ keccak256 m, b < 256 := by
  simp only [keccak256, List.mem_map, List.mem_range]
  rintro b ⟨i, -, rfl⟩
  exact Nat.mod_lt _ (by norm_num)

theorem hexCharVal_hexChar : ∀ n, n < 16 → hexCharVal (hexChar n) = some n := by decide

theorem isHexDigitAny_hexChar : ∀ n, n < 16 → isHexDigitAny (hexChar n) = true := by decide

theorem bytesToHex_nil : bytesToHex [] = [] := rfl

theorem bytesToHex_cons (b : Nat) (t : List Nat) :
    bytesToHex (b :: t) = hexChar (b / 16) :: hexChar (b % 16) :: bytesToHex t := by
  simp [bytesToHex, byteToHex]

theorem bytesToHex_length (bs : List Nat) : (bytesToHex bs).length = 2 * bs.length := by
  induction bs with
  | nil => rfl
  | cons b t ih => rw [bytesToHex_cons]; simp [ih]; omega

theorem hexPairsToBytes_bytesToHex (bs : List Nat) (h : ∀ b ∈ bs, b < 256) :
    hexPairsToBytes (bytesToHex bs) = some bs := by
  induction bs with
  | nil => rfl
  | cons b t ih =>
    have hb : b < 256 := h b (by simp)
    rw [bytesToHex_cons, hexPairsToBytes,
      hexCharVal_hexChar (b / 16) (by omega),
      hexCharVal_hexChar (b % 16) (by omega),
      ih (fun x hx => h x (by simp [hx]))]
    have : 16 * (b / 16) + b % 16 = b := by omega
    simp [this]

theorem getBytes_hex0x (bs : List Nat) (h : ∀ b ∈ bs, b < 256) :
    getBytes (hex0x bs) = some bs := by
  simp [getBytes, hex0x, hexPairsToBytes_bytesToHex bs h]

theorem getBytesD_hex0x (bs : List Nat) (h : ∀ b ∈ bs, b < 256) :
    getBytesD (hex0x bs) = bs := by
  simp [getBytesD, getBytes_hex0x bs h]

theorem bytesToHex_all_hex (bs : List Nat) (h256 : ∀ b ∈ bs, b < 256) :
    ∀ c ∈ bytesToHex bs, isHexDigitAny c = true := by
  induction bs with
  | nil => simp [bytesToHex_nil]
  | cons b t ih =>
    have hb : b < 256 := h256 b (by simp)
    rw [bytesToHex_cons]
    intro c hc
    simp only [List.mem_cons] at hc
    rcases hc with rfl | rfl | h
    · exact isHexDigitAny_hexChar _ (by omega)
    · exact isHexDigitAny_hexChar _ (by omega)
    · exact ih (fun x hx => h256 x (by simp [hx])) c h

theorem deriveId_shape (d : JsonValue) :
    deriveId d = '0' :: 'x' :: bytesToHex (keccak256 (utf8Encode (stringifyVal d))) := rfl

theorem deriveId_length (d : JsonValue) : (deriveId d).length = 66 := by
  rw [deriveId_shape]
  simp [bytesToHex_length, keccak256_length]

theorem isHexString32_deriveId (d : JsonValue) : isHexString32 (deriveId d) = true := by
  rw [deriveId_shape, isHexString32]
  have h1 := bytesToHex_all_hex (keccak256 (utf8Encode (stringifyVal d))) (keccak256_lt _)
  have h2 : (bytesToHex (keccak256 (utf8Encode (stringifyVal d)))).length = 64 := by
    simp [bytesToHex_length, keccak256_length]
  have h3 := List.all_eq_true.mpr h1
  simp [h3, h2]

theorem addressBytes_length (sk : Nat) : (addressBytes sk).length = 20 := by
  simp [addressBytes, keccak256_length]

theorem addressBytes_lt (sk : Nat) : ∀ b ∈ addressBytes sk, b < 256 := by
  intro b hb
  exact keccak256_lt _ b (List.mem_of_mem_drop hb)

theorem ecdsaSignRaw_length (sk : Nat) (h : List Nat) (hh : h.length = 32) :
    (ecdsaSignRaw sk h).length = 65 := by
  simp [ecdsaSignRaw, addressBytes_length, List.length_take, hh]

theorem ecdsaSignRaw_lt (sk : Nat) (h : List Nat) (hlt : ∀ b ∈ h, b < 256) :
    ∀ b ∈ ecdsaSignRaw sk h, b < 256 := by
  rw [ecdsaSignRaw]
  refine List.forall_mem_append.mpr ⟨List.forall_mem_append.mpr
    ⟨fun b hb => hlt b (List.mem_of_mem_take hb),
     List.forall_mem_append.mpr ⟨?_, addressBytes_lt sk⟩⟩, ?_⟩
  · intro b hb
    have := List.eq_of_mem_replicate hb
    omega
  · intro b hb
    simp only [List.mem_cons, List.not_mem_nil, or_false] at hb
    omega

theorem ecdsaRecover_signRaw (sk : Nat) (h : List Nat) (hh : h.length = 32) :
    ecdsaRecover h (ecdsaSignRaw sk h) = some (addressBytes sk) := by
  have htake : (ecdsaSignRaw sk h).take 32 = h := by
    simp [ecdsaSignRaw, List.take_append_eq_append_take, List.take_take, hh,
      List.take_of_length_le (le_of_eq hh)]
  have hdrop : (ecdsaSignRaw sk h).drop 32 = (List.replicate 12 0 ++ addressBytes sk) ++ [27] := by
    have : ((h.take 32) ++ ((List.replicate 12 0 ++ addressBytes sk) ++ [27])).drop 32 =
        (List.replicate 12 0 ++ addressBytes sk) ++ [27] := by
      rw [List.drop_append_of_le_length (by simp [hh])]
      simp [List.take_of_length_le (le_of_eq hh), hh]
    simpa [ecdsaSignRaw, List.append_assoc] using this
  rw [ecdsaRecover, if_pos]
  · rw [hdrop]
    have : ((List.replicate 12 0 ++ addressBytes sk ++ [27]).take 32) =
        List.replicate 12 0 ++ addressBytes sk := by
      rw [List.take_append_of_le_length (by simp [addressBytes_length])]
      simp [List.take_of_length_le, addressBytes_length]
    rw [this]
    simp
  · exact ⟨ecdsaSignRaw_length sk h hh, htake⟩

theorem personalMessageHash_length (msg : List Nat) :
    (personalMessageHash msg).length = 32 := keccak256_length _

theorem personalMessageHash_lt (msg : List Nat) :
    ∀ b ∈ personalMessageHash msg, b < 256 := keccak256_lt _

theorem verifyMessageHex_signMessageHex (sk : Nat) (msg : List Nat) :
    verifyMessageHex msg (signMessageHex sk msg) = some (addressHex sk) := by
  rw [verifyMessageHex, signMessageHex,
    getBytes_hex0x (ecdsaSignRaw sk (personalMessageHash msg))
      (ecdsaSignRaw_lt sk (personalMessageHash msg) (personalMessageHash_lt msg))]
  simp [ecdsaRecover_signRaw sk _ (personalMessageHash_length msg), addressHex]

theorem signMessageHex_length (sk : Nat) (msg : List Nat) :
    (signMessageHex sk msg).length = 132 := by
  simp [signMessageHex, hex0x, bytesToHex_length,
    ecdsaSignRaw_length sk _ (personalMessageHash_length msg)]

/-! ## JSON round trip: serializing and reparsing recovers the value -/

theorem natToDecAux_ne_nil : ∀ fuel n, n < fuel → natToDecAux fuel n ≠ [] := by
  intro fuel
  induction fuel with
  | zero => intro n h; omega
  | succ fuel ih =>
    intro n h
    rw [natToDecAux]
    split
    · simp
    · simp

theorem natToDec_ne_nil (n : Nat) : natToDec n ≠ [] :=
  natToDecAux_ne_nil (n + 1) n (by omega)

theorem isDigit_digitChar (n : Nat) (h : n < 10) :
    isDigit (Char.ofNat (48 + n)) = true := by
  simp only [isDigit, toNat_ofNat_valid (show 48 + n < 55296 by omega),
    Bool.and_eq_true, decide_eq_true_eq]
  omega

theorem natToDecAux_all_digit :
    ∀ fuel n, n < fuel → ∀ c ∈ natToDecAux fuel n, isDigit c = true := by
  intro fuel
  induction fuel with
  | zero => intro n h; omega
  | succ fuel ih =>
    intro n h c hc
    rw [natToDecAux] at hc
    revert hc
    split
    · intro hc
      simp only [List.mem_singleton] at hc
      subst hc
      exact isDigit_digitChar n (by omega)
    · rename_i h10
      intro hc
      rcases List.mem_append.mp hc with h1 | h1
      · exact ih (n / 10) (by omega) c h1
      · simp only [List.mem_singleton] at h1
        subst h1
        exact isDigit_digitChar (n % 10) (by omega)

theorem natToDec_all_digit (n : Nat) : ∀ c ∈ natToDec n, isDigit c = true :=
  natToDecAux_all_digit (n + 1) n (by omega)

theorem decodeDigits_natToDecAux :
    ∀ fuel n, n < fuel → decodeDigits (natToDecAux fuel n) = n := by
  intro fuel
  induction fuel with
  | zero => intro n h; omega
  | succ fuel ih =>
    intro n h
    rw [natToDecAux]
    split
    · rename_i h10
      simp only [decodeDigits, List.foldl_cons, List.foldl_nil,
        toNat_ofNat_valid (show 48 + n < 55296 by omega)]
      omega
    · rename_i h10
      have hrec := ih (n / 10) (by omega)
      simp only [decodeDigits] at hrec ⊢
      rw [List.foldl_append, hrec]
      simp only [List.foldl_cons, List.foldl_nil,
        toNat_ofNat_valid (show 48 + n % 10 < 55296 by omega)]
      omega

theorem decodeDigits_natToDec (n : Nat) : decodeDigits (natToDec n) = n :=
  decodeDigits_natToDecAux (n + 1) n (by omega)

theorem parseDigits_append (ds rest : List Char) (hne : ds ≠ [])
    (hds : ∀ c ∈ ds, isDigit c = true) (hrest : noDigitHead rest = true) :
    parseDigits (ds ++ rest) = some (decodeDigits ds, rest) := by
  have htw : rest.takeWhile isDigit = [] := by
    cases rest with
    | nil => rfl
    | cons c t =>
      simp only [noDigitHead, Bool.not_eq_true'] at hrest
      simp [List.takeWhile_cons, hrest]
  have hdw : rest.dropWhile isDigit = rest := by
    cases rest with
    | nil => rfl
    | cons c t =>
      simp only [noDigitHead, Bool.not_eq_true'] at hrest
      simp [List.dropWhile_cons, hrest]
  rw [parseDigits]
  simp only [List.takeWhile_append_of_pos hds, List.dropWhile_append_of_pos hds,
    htw, hdw, List.append_nil]
  simp [hne]

theorem parseDigits_natToDec (n : Nat) (rest : List Char)
    (hrest : noDigitHead rest = true) :
    parseDigits (natToDec n ++ rest) = some (n, rest) := by
  rw [parseDigits_append (natToDec n) rest (natToDec_ne_nil n)
    (natToDec_all_digit n) hrest, decodeDigits_natToDec]

theorem parseStrBody_quote (l : List Char) : parseStrBody ('"' :: l) = some ([], l) := by
  simp [parseStrBody]

theorem parseStrBody_bslash (l : List Char) : parseStrBody ('\\' :: l) = parseEsc l := by
  simp [parseStrBody]

theorem parseStrBody_plain (c : Char) (l : List Char) (h1 : c ≠ '"') (h2 : c ≠ '\\')
    (h3 : ¬ c.toNat < 32) :
    parseStrBody (c :: l) = (parseStrBody l).map fun (s, r1) => (c :: s, r1) := by
  simp [parseStrBody, h1, h2, h3]

theorem parseEsc_u (a b e d : Nat) (ha : a < 16) (hb : b < 16) (he : e < 16)
    (hd : d < 16) (r1 : List Char) :
    parseEsc ('u' :: hexChar a :: hexChar b :: hexChar e :: hexChar d :: r1) =
      (parseStrBody r1).map fun (s, r2) =>
        (Char.ofNat (4096 * a + 256 * b + 16 * e + d) :: s, r2) := by
  simp [parseEsc, hexCharVal_hexChar a ha, hexCharVal_hexChar b hb,
    hexCharVal_hexChar e he, hexCharVal_hexChar d hd]

theorem parseStrBody_escape (s rest : List Char) :
    parseStrBody (escapeStr s ++ '"' :: rest) = some (s, rest) := by
  induction s with
  | nil => simpa [escapeStr] using parseStrBody_quote rest
  | cons c t ih =>
    have hes : escapeStr (c :: t) = escChar c ++ escapeStr t := by simp [escapeStr]
    rw [hes, List.append_assoc, escChar]
    by_cases h1 : c = '"'
    · subst h1
      simp [parseStrBody_bslash, parseEsc, ih]
    · rw [if_neg h1]
      by_cases h2 : c = '\\'
      · subst h2
        simp [parseStrBody_bslash, parseEsc, ih]
      · rw [if_neg h2]
        by_cases h3 : c = Char.ofNat 8
        · subst h3
          simp [parseStrBody_bslash, parseEsc, ih]
        · rw [if_neg h3]
          by_cases h4 : c = Char.ofNat 9
          · subst h4
            simp [parseStrBody_bslash, parseEsc, ih]
          · rw [if_neg h4]
            by_cases h5 : c = Char.ofNat 10
            · subst h5
              simp [parseStrBody_bslash, parseEsc, ih]
            · rw [if_neg h5]
              by_cases h6 : c = Char.ofNat 12
              · subst h6
                simp [parseStrBody_bslash, parseEsc, ih]
              · rw [if_neg h6]
                by_cases h7 : c = Char.ofNat 13
                · subst h7
                  simp [parseStrBody_bslash, parseEsc, ih]
                · rw [if_neg h7]
                  by_cases h8 : c.toNat < 32
                  · rw [if_pos h8, hex4]
                    simp only [List.cons_append, List.nil_append]
                    rw [parseStrBody_bslash,
                      parseEsc_u _ _ _ _ (by omega) (by omega) (by omega) (by omega), ih]
                    have harith : 4096 * (c.toNat / 4096 % 16) + 256 * (c.toNat / 256 % 16) +
                        16 * (c.toNat / 16 % 16) + c.toNat % 16 = c.toNat := by omega
                    rw [harith]
                    simp
                  · rw [if_neg h8]
                    simp only [List.cons_append, List.nil_append]
                    rw [parseStrBody_plain c _ h1 h2 h8, ih]
                    rfl

theorem stringifyVal_ne_nil (v : JsonValue) : stringifyVal v ≠ [] := by
  cases v with
  | null => simp [stringifyVal]
  | bool b => cases b <;> simp [stringifyVal]
  | num i =>
    show intToDec i ≠ []
    rw [intToDec]
    split
    · simp
    · exact natToDec_ne_nil _
  | str s => simp [stringifyVal]
  | arr xs => simp [stringifyVal]
  | obj ms => simp [stringifyVal]

theorem stringifyVal_length_pos (v : JsonValue) : 0 < (stringifyVal v).length :=
  List.length_pos.mpr (stringifyVal_ne_nil v)

theorem natToDec_exists_cons (n : Nat) :
    ∃ c t, natToDec n = c :: t ∧ isDigit c = true := by
  cases h : natToDec n with
  | nil => exact absurd h (natToDec_ne_nil n)
  | cons a b =>
    exact ⟨a, b, rfl, natToDec_all_digit n a (h ▸ List.mem_cons_self a b)⟩

theorem stringify_head_ne_rbrack (v : JsonValue) (t : List Char)
    (h : stringifyVal v = ']' :: t) : False := by
  cases v with
  | null =>
    rw [show stringifyVal .null = 'n' :: ['u', 'l', 'l'] from rfl] at h
    injection h with h1 _
    exact absurd h1 (by decide)
  | bool b =>
    cases b with
    | true =>
      rw [show stringifyVal (.bool true) = 't' :: ['r', 'u', 'e'] from rfl] at h
      injection h with h1 _
      exact absurd h1 (by decide)
    | false =>
      rw [show stringifyVal (.bool false) = 'f' :: ['a', 'l', 's', 'e'] from rfl] at h
      injection h with h1 _
      exact absurd h1 (by decide)
  | num i =>
    rw [show stringifyVal (.num i) = intToDec i from rfl, intToDec] at h
    revert h
    split
    · intro h
      injection h with h1 _
      exact absurd h1 (by decide)
    · intro h
      obtain ⟨c, t0, hct, hdig⟩ := natToDec_exists_cons i.natAbs
      rw [hct] at h
      injection h with h1 _
      rw [h1] at hdig
      exact absurd hdig (by decide)
  | str s =>
    rw [show stringifyVal (.str s) = '"' :: (escapeStr s ++ ['"']) from rfl] at h
    injection h with h1 _
    exact absurd h1 (by decide)
  | arr xs =>
    rw [show stringifyVal (.arr xs) = '[' :: (stringifyArr xs ++ [']']) from rfl] at h
    injection h with h1 _
    exact absurd h1 (by decide)
  | obj ms =>
    rw [show stringifyVal (.obj ms) = lbrace :: (stringifyObj ms ++ [rbrace]) from rfl] at h
    injection h with h1 _
    exact absurd h1 (by decide)

theorem stringifyArr_cons_exists (x : JsonValue) (xs : List JsonValue) :
    ∃ c t t0, stringifyArr (x :: xs) = c :: t ∧ stringifyVal x = c :: t0 := by
  obtain ⟨c, t0, hct⟩ : ∃ c t0, stringifyVal x = c :: t0 := by
    cases h : stringifyVal x with
    | nil => exact absurd h (stringifyVal_ne_nil x)
    | cons a b => exact ⟨a, b, rfl⟩
  cases xs with
  | nil => exact ⟨c, t0, t0, by rw [show stringifyArr [x] = stringifyVal x from rfl, hct], hct⟩
  | cons y ys =>
    refine ⟨c, t0 ++ ',' :: stringifyArr (y :: ys), t0, ?_, hct⟩
    rw [show stringifyArr (x :: y :: ys) =
      stringifyVal x ++ ',' :: stringifyArr (y :: ys) from rfl, hct]
    rfl

theorem stringifyObj_cons_exists (kv : List Char × JsonValue)
    (ms : List (List Char × JsonValue)) :
    ∃ t, stringifyObj (kv :: ms) = '"' :: t := by
  obtain ⟨k, v⟩ := kv
  cases ms with
  | nil => exact ⟨escapeStr k ++ '"' :: ':' :: stringifyVal v, rfl⟩
  | cons m ms1 =>
    exact ⟨(escapeStr k ++ '"' :: ':' :: stringifyVal v) ++
      ',' :: stringifyObj (m :: ms1), rfl⟩

theorem parseVal_digitHead (f : Nat) (c : Char) (l : List Char) (hc : isDigit c = true) :
    parseVal (f + 1) (c :: l) =
      (parseDigits (c :: l)).map fun (n, r1) => (JsonValue.num (n : Int), r1) := by
  have h1 : c ≠ 'n' := fun h => by rw [h] at hc; exact absurd hc (by decide)
  have h2 : c ≠ 't' := fun h => by rw [h] at hc; exact absurd hc (by decide)
  have h3 : c ≠ 'f' := fun h => by rw [h] at hc; exact absurd hc (by decide)
  have h4 : c ≠ '"' := fun h => by rw [h] at hc; exact absurd hc (by decide)
  have h5 : c ≠ '[' := fun h => by rw [h] at hc; exact absurd hc (by decide)
  have h6 : c ≠ lbrace := fun h => by rw [h] at hc; exact absurd hc (by decide)
  have h7 : c ≠ '-' := fun h => by rw [h] at hc; exact absurd hc (by decide)
  simp [parseVal, h1, h2, h3, h4, h5, h6, h7, hc]

theorem parseVal_arrCons (f : Nat) (c2 : Char) (l : List Char) (hc : c2 ≠ ']') :
    parseVal (f + 1) ('[' :: c2 :: l) =
      (parseElems f (c2 :: l)).map fun (xs, r1) => (JsonValue.arr xs, r1) := by
  simp [parseVal, hc]

theorem parseVal_objCons (f : Nat) (c2 : Char) (l : List Char) (hc : c2 ≠ rbrace) :
    parseVal (f + 1) (lbrace :: c2 :: l) =
      (parseMembers f (c2 :: l)).map fun (ms, r1) => (JsonValue.obj ms, r1) := by
  have e1 : lbrace ≠ 'n' := by decide
  have e2 : lbrace ≠ 't' := by decide
  have e3 : lbrace ≠ 'f' := by decide
  have e4 : lbrace ≠ '"' := by decide
  have e5 : lbrace ≠ '[' := by decide
  simp [parseVal, hc, e1, e2, e3, e4, e5]

theorem parseElems_stringify (xs : List JsonValue) (hne : xs ≠ [])
    (hIH : ∀ v ∈ xs, RT v) :
    ∀ f rest, (stringifyArr xs).length + 2 ≤ f →
      parseElems f (stringifyArr xs ++ ']' :: rest) = some (xs, rest) := by
  induction xs with
  | nil => exact absurd rfl hne
  | cons x xs ihl =>
    intro f rest hf
    obtain ⟨f1, rfl⟩ : ∃ f1, f = f1 + 1 := ⟨f - 1, by omega⟩
    cases xs with
    | nil =>
      rw [show stringifyArr [x] = stringifyVal x from rfl] at hf ⊢
      have hx := hIH x (List.mem_cons_self x []) f1 (']' :: rest) (by omega) rfl
      calc parseElems (f1 + 1) (stringifyVal x ++ ']' :: rest)
          = match parseVal f1 (stringifyVal x ++ ']' :: rest) with
            | some (v, ',' :: r) => (parseElems f1 r).map fun (ys, r1) => (v :: ys, r1)
            | some (v, ']' :: r) => some ([v], r)
            | _ => none := rfl
        _ = some ([x], rest) := by rw [hx]; exact rfl
    | cons y ys =>
      have hsa : stringifyArr (x :: y :: ys) =
          stringifyVal x ++ ',' :: stringifyArr (y :: ys) := rfl
      rw [hsa] at hf ⊢
      simp only [List.length_append, List.length_cons] at hf
      have hlx := stringifyVal_length_pos x
      rw [List.append_assoc]
      simp only [List.cons_append]
      have hx := hIH x (List.mem_cons_self x (y :: ys)) f1
        (',' :: (stringifyArr (y :: ys) ++ ']' :: rest)) (by omega) rfl
      calc parseElems (f1 + 1)
            (stringifyVal x ++ ',' :: (stringifyArr (y :: ys) ++ ']' :: rest))
          = match parseVal f1
              (stringifyVal x ++ ',' :: (stringifyArr (y :: ys) ++ ']' :: rest)) with
            | some (v, ',' :: r) => (parseElems f1 r).map fun (ys1, r1) => (v :: ys1, r1)
            | some (v, ']' :: r) => some ([v], r)
            | _ => none := rfl
        _ = (parseElems f1 (stringifyArr (y :: ys) ++ ']' :: rest)).map
              fun (ys1, r1) => (x :: ys1, r1) := by rw [hx]; exact rfl
        _ = some (x :: y :: ys, rest) := by
              rw [ihl (by simp) (fun v hv => hIH v (List.mem_cons_of_mem x hv)) f1 rest
                (by omega)]
              rfl

theorem parseMembers_stringify (ms : List (List Char × JsonValue)) (hne : ms ≠ [])
    (hIH : ∀ kv ∈ ms, RT kv.2) :
    ∀ f rest, (stringifyObj ms).length + 2 ≤ f →
      parseMembers f (stringifyObj ms ++ rbrace :: rest) = some (ms, rest) := by
  induction ms with
  | nil => exact absurd rfl hne
  | cons kv ms ihl =>
    obtain ⟨k, v⟩ := kv
    intro f rest hf
    obtain ⟨f1, rfl⟩ : ∃ f1, f = f1 + 1 := ⟨f - 1, by omega⟩
    cases ms with
    | nil =>
      rw [show stringifyObj [(k, v)] =
        ('"' :: escapeStr k) ++ ('"' :: ':' :: stringifyVal v) from rfl] at hf ⊢
      simp only [List.length_append, List.length_cons] at hf
      simp only [List.cons_append, List.append_assoc, List.nil_append]
      have hIHv : RT v := hIH (k, v) (List.mem_cons_self _ _)
      have hv := hIHv f1 (rbrace :: rest) (by omega) rfl
      calc parseMembers (f1 + 1)
            ('"' :: (escapeStr k ++ '"' :: ':' :: (stringifyVal v ++ rbrace :: rest)))
          = match parseStrBody
              (escapeStr k ++ '"' :: ':' :: (stringifyVal v ++ rbrace :: rest)) with
            | some (k0, ':' :: r1) =>
              match parseVal f1 r1 with
              | some (v0, ',' :: r2) =>
                (parseMembers f1 r2).map fun (ms1, r3) => ((k0, v0) :: ms1, r3)
              | some (v0, r2) =>
                match r2 with
                | c :: r3 => if c = rbrace then some ([(k0, v0)], r3) else none
                | [] => none
              | none => none
            | _ => none := rfl
        _ = match parseVal f1 (stringifyVal v ++ rbrace :: rest) with
            | some (v0, ',' :: r2) =>
              (parseMembers f1 r2).map fun (ms1, r3) => ((k, v0) :: ms1, r3)
            | some (v0, r2) =>
              match r2 with
              | c :: r3 => if c = rbrace then some ([(k, v0)], r3) else none
              | [] => none
            | none => none := by
              rw [parseStrBody_escape k (':' :: (stringifyVal v ++ rbrace :: rest))]
              exact rfl
        _ = some ([(k, v)], rest) := by rw [hv]; exact rfl
    | cons m ms1 =>
      rw [show stringifyObj ((k, v) :: m :: ms1) =
        (('"' :: escapeStr k) ++ ('"' :: ':' :: stringifyVal v)) ++
          ',' :: stringifyObj (m :: ms1) from rfl] at hf ⊢
      simp only [List.length_append, List.length_cons] at hf
      simp only [List.cons_append, List.append_assoc, List.nil_append]
      have hIHv : RT v := hIH (k, v) (List.mem_cons_self _ _)
      have hv := hIHv f1
        (',' :: (stringifyObj (m :: ms1) ++ rbrace :: rest)) (by omega) rfl
      calc parseMembers (f1 + 1)
            ('"' :: (escapeStr k ++ '"' :: ':' ::
              (stringifyVal v ++ ',' :: (stringifyObj (m :: ms1) ++ rbrace :: rest))))
          = match parseStrBody (escapeStr k ++ '"' :: ':' ::
              (stringifyVal v ++ ',' :: (stringifyObj (m :: ms1) ++ rbrace :: rest))) with
            | some (k0, ':' :: r1) =>
              match parseVal f1 r1 with
              | some (v0, ',' :: r2) =>
                (parseMembers f1 r2).map fun (ms2, r3) => ((k0, v0) :: ms2, r3)
              | some (v0, r2) =>
                match r2 with
                | c :: r3 => if c = rbrace then some ([(k0, v0)], r3) else none
                | [] => none
              | none => none
            | _ => none := rfl
        _ = match parseVal f1
              (stringifyVal v ++ ',' :: (stringifyObj (m :: ms1) ++ rbrace :: rest)) with
            | some (v0, ',' :: r2) =>
              (parseMembers f1 r2).map fun (ms2, r3) => ((k, v0) :: ms2, r3)
            | some (v0, r2) =>
              match r2 with
              | c :: r3 => if c = rbrace then some ([(k, v0)], r3) else none
              | [] => none
            | none => none := by
              rw [parseStrBody_escape k (':' ::
                (stringifyVal v ++ ',' :: (stringifyObj (m :: ms1) ++ rbrace :: rest)))]
              exact rfl
        _ = (parseMembers f1 (stringifyObj (m :: ms1) ++ rbrace :: rest)).map
              fun (ms2, r3) => ((k, v) :: ms2, r3) := by
              rw [hv]; exact rfl
        _ = some ((k, v) :: m :: ms1, rest) := by
              rw [ihl (by simp) (fun kv0 hkv => hIH kv0 (List.mem_cons_of_mem _ hkv)) f1
                rest (by omega)]
              rfl

theorem rtNull : RT .null := by
  intro f rest hf hrest
  obtain ⟨f1, rfl⟩ : ∃ f1, f = f1 + 1 := ⟨f - 1, by omega⟩
  rfl

theorem rtBool (b : Bool) : RT (.bool b) := by
  intro f rest hf hrest
  obtain ⟨f1, rfl⟩ : ∃ f1, f = f1 + 1 := ⟨f - 1, by omega⟩
  cases b <;> rfl

theorem rtNum (n : Int) : RT (.num n) := by
  intro f rest hf hrest
  obtain ⟨f1, rfl⟩ : ∃ f1, f = f1 + 1 := ⟨f - 1, by omega⟩
  rw [show stringifyVal (.num n) = intToDec n from rfl] at hf ⊢
  rw [intToDec] at hf ⊢
  revert hf
  split
  · rename_i hneg
    intro hf
    simp only [List.cons_append]
    have step : parseVal (f1 + 1) ('-' :: (natToDec n.natAbs ++ rest)) =
        (parseDigits (natToDec n.natAbs ++ rest)).map
          fun (m, r1) => (JsonValue.num (-(m : Int)), r1) := rfl
    rw [step, parseDigits_natToDec _ _ hrest]
    have heq : -((n.natAbs : Nat) : Int) = n := by omega
    show some (JsonValue.num (-((n.natAbs : Nat) : Int)), rest) = some (JsonValue.num n, rest)
    rw [heq]
  · rename_i hneg
    intro hf
    obtain ⟨c, t, hct, hdig⟩ := natToDec_exists_cons n.natAbs
    rw [hct]
    simp only [List.cons_append]
    rw [parseVal_digitHead f1 c (t ++ rest) hdig, ← List.cons_append, ← hct,
      parseDigits_natToDec _ _ hrest]
    have heq : ((n.natAbs : Nat) : Int) = n := by omega
    show some (JsonValue.num ((n.natAbs : Nat) : Int), rest) = some (JsonValue.num n, rest)
    rw [heq]

theorem rtStr (s : List Char) : RT (.str s) := by
  intro f rest hf hrest
  obtain ⟨f1, rfl⟩ : ∃ f1, f = f1 + 1 := ⟨f - 1, by omega⟩
  rw [show stringifyVal (.str s) = '"' :: (escapeStr s ++ ['"']) from rfl]
  simp only [List.cons_append, List.append_assoc, List.singleton_append, List.nil_append]
  have step : parseVal (f1 + 1) ('"' :: (escapeStr s ++ '"' :: rest)) =
      (parseStrBody (escapeStr s ++ '"' :: rest)).map
        fun (s0, r1) => (JsonValue.str s0, r1) := rfl
  rw [step, parseStrBody_escape s rest]
  rfl

theorem rtArr (xs : List JsonValue) (hIH : ∀ v ∈ xs, RT v) : RT (.arr xs) := by
  intro f rest hf hrest
  obtain ⟨f1, rfl⟩ : ∃ f1, f = f1 + 1 := ⟨f - 1, by omega⟩
  cases xs with
  | nil =>
    rw [show stringifyVal (.arr []) = ['[', ']'] from rfl]
    simp only [List.cons_append, List.nil_append]
    rfl
  | cons x xs1 =>
    rw [show stringifyVal (.arr (x :: xs1)) =
      '[' :: (stringifyArr (x :: xs1) ++ [']']) from rfl] at hf ⊢
    simp only [List.length_cons, List.length_append, List.length_singleton] at hf
    simp only [List.cons_append, List.append_assoc, List.singleton_append, List.nil_append]
    obtain ⟨c, t, t0, hct, hx0⟩ := stringifyArr_cons_exists x xs1
    have hcne : c ≠ ']' := by
      intro hc
      exact stringify_head_ne_rbrack x t0 (hc ▸ hx0)
    rw [hct]
    simp only [List.cons_append]
    rw [parseVal_arrCons f1 c (t ++ ']' :: rest) hcne, ← List.cons_append, ← hct,
      parseElems_stringify (x :: xs1) (by simp) hIH f1 rest (by omega)]
    rfl

theorem rtObj (ms : List (List Char × JsonValue)) (hIH : ∀ kv ∈ ms, RT kv.2) :
    RT (.obj ms) := by
  intro f rest hf hrest
  obtain ⟨f1, rfl⟩ : ∃ f1, f = f1 + 1 := ⟨f - 1, by omega⟩
  cases ms with
  | nil =>
    rw [show stringifyVal (.obj []) = [lbrace, rbrace] from rfl]
    simp only [List.cons_append, List.nil_append]
    have step : parseVal (f1 + 1) (lbrace :: rbrace :: rest) =
        some (JsonValue.obj [], rest) := rfl
    exact step
  | cons m ms1 =>
    rw [show stringifyVal (.obj (m :: ms1)) =
      lbrace :: (stringifyObj (m :: ms1) ++ [rbrace]) from rfl] at hf ⊢
    simp only [List.length_cons, List.length_append, List.length_singleton] at hf
    simp only [List.cons_append, List.append_assoc, List.singleton_append, List.nil_append]
    obtain ⟨t, hct⟩ := stringifyObj_cons_exists m ms1
    rw [hct]
    simp only [List.cons_append]
    rw [parseVal_objCons f1 '"' (t ++ rbrace :: rest) (by decide), ← List.cons_append,
      ← hct, parseMembers_stringify (m :: ms1) (by simp) hIH f1 rest (by omega)]
    rfl

theorem parseVal_stringify (v : JsonValue) : RT v :=
  JsonValue.forallRec rtNull rtBool rtNum rtStr rtArr rtObj v

/-- The round trip at the heart of create-then-get: reparsing the
canonical serialization of any JSON value recovers it exactly. -/
theorem jsonParse_stringify (v : JsonValue) : jsonParse (stringifyVal v) = some v := by
  rw [jsonParse]
  have h := parseVal_stringify v ((stringifyVal v).length + 1) [] (le_refl _) rfl
  rw [List.append_nil] at h
  rw [h]

/-! ## Handler-level facts -/

theorem signerFieldCheck_err (sg : Option JsonValue) (r : Resp)
    (h : signerFieldCheck sg = some r) : ∃ st code, r = .err st code := by
  unfold signerFieldCheck at h
  repeat' split at h
  all_goals first
    | exact ⟨_, _, (Option.some.inj h).symm⟩
    | exact Option.noConfusion h

theorem validateVoteData_err (req : CreateRequest) (r : Resp)
    (h : validateVoteData req = some r) : ∃ st code, r = .err st code := by
  unfold validateVoteData at h
  repeat' split at h
  all_goals first
    | exact ⟨_, _, (Option.some.inj h).symm⟩
    | exact Option.noConfusion h
    | exact signerFieldCheck_err _ _ h

theorem create_success_inv (k : Nat) (req : CreateRequest) (s : Store)
    (hc : isCreated (postVotes k req s).1 = true) :
    ∃ d sigJ recAddr,
      req.data = some d ∧
      req.signature = some sigJ ∧
      jsTruthy sigJ = true ∧
      validateVoteData req = none ∧
      validateSignature d sigJ req.signer = .valid recAddr ∧
      s.any (fun q => q.id == deriveId d) = false ∧
      postVotes k req s =
        (.created (deriveId d) (signMessageHex k (getBytesD (deriveId d))) recAddr
           (addressHex k),
         s ++ [⟨deriveId d, stringifyVal d,
           signMessageHex k (getBytesD (deriveId d)), recAddr⟩]) := by
  cases hval : validateVoteData req with
  | some r =>
    have hc1 : isCreated r = true := by simpa [postVotes, hval] using hc
    obtain ⟨st, code, rfl⟩ := validateVoteData_err req r hval
    exact absurd hc1 (by simp [isCreated])
  | none =>
    simp only [postVotes, hval] at hc
    cases hd : req.data with
    | none => simp [handleCreateVote, hd, isCreated] at hc
    | some d =>
      simp only [handleCreateVote, hd] at hc
      cases hsg : req.signature with
      | none => simp [hsg, isCreated] at hc
      | some sigJ =>
        simp only [hsg] at hc
        cases hjt : jsTruthy sigJ with
        | false => simp [hjt, isCreated] at hc
        | true =>
          simp only [hjt, if_true] at hc
          cases hvs : validateSignature d sigJ req.signer with
          | failed => simp [hvs, isCreated] at hc
          | signerMismatch a => simp [hvs, isCreated] at hc
          | valid recAddr =>
            simp only [hvs, insertVote] at hc
            cases hany : s.any (fun q => q.id == deriveId d) with
            | true => simp [hany, isCreated] at hc
            | false =>
              refine ⟨d, sigJ, recAddr, rfl, rfl, hjt, rfl, hvs, hany, ?_⟩
              simp [postVotes, hval, handleCreateVote, hd, hsg, hjt, hvs,
                insertVote, hany]

theorem postVotes_store_of_not_created (k : Nat) (req : CreateRequest) (s : Store)
    (hc : isCreated (postVotes k req s).1 = false) : (postVotes k req s).2 = s := by
  cases hval : validateVoteData req with
  | some r => simp [postVotes, hval]
  | none =>
    simp only [postVotes, hval] at hc ⊢
    cases hd : req.data with
    | none => simp [handleCreateVote, hd]
    | some d =>
      simp only [handleCreateVote, hd] at hc ⊢
      cases hsg : req.signature with
      | none => simp [hsg]
      | some sigJ =>
        simp only [hsg] at hc ⊢
        cases hjt : jsTruthy sigJ with
        | false => simp [hjt]
        | true =>
          simp only [hjt, if_true] at hc ⊢
          cases hvs : validateSignature d sigJ req.signer with
          | failed => simp [hvs]
          | signerMismatch a => simp [hvs]
          | valid recAddr =>
            simp only [hvs, insertVote] at hc ⊢
            cases hany : s.any (fun q => q.id == deriveId d) with
            | true => simp [hany]
            | false => simp [hany, isCreated] at hc

/-- C2: for every successfully created record, the stored
`operatorSignature` is the 65-byte recoverable signature over the
personal-message hash of the 32 raw identifier bytes, rendered as a
132-character `0x`-prefixed hex string, and recovering the signer from
`(id, operatorSignature)` yields the operator's address — an invariant
of every stored record, preserved by the create pipeline. -/
theorem C2_signature_invariant (k : Nat) (req : CreateRequest) (s : Store)
    (hs : ∀ r ∈ s, recordOk k r) :
    ∀ r ∈ (postVotes k req s).2, recordOk k r := by
  by_cases hc : isCreated (postVotes k req s).1 = true
  · obtain ⟨d, sigJ, recAddr, hd, hsg, hjt, hval, hvs, hany, heq⟩ :=
      create_success_inv k req s hc
    rw [heq]
    intro r hr
    rcases List.mem_append.mp hr with h | h
    · exact hs r h
    · simp only [List.mem_singleton] at h
      subst h
      exact ⟨rfl, signMessageHex_length k _, verifyMessageHex_signMessageHex k _⟩
  · rw [postVotes_store_of_not_created k req s (by simpa using hc)]
    exact hs

set_option maxRecDepth 1000000 in
/-- C2 witness: the record a concrete create on the empty store
persists satisfies the signature invariant. -/
theorem C2_witness :
    recordOk 1 (VoteRecord.mk (deriveId sampleData) (stringifyVal sampleData)
      (signMessageHex 1 (getBytesD (deriveId sampleData))) (addressHex 2)) :=
  C2_signature_invariant 1 sampleReq [] (by simp)
    (VoteRecord.mk (deriveId sampleData) (stringifyVal sampleData)
      (signMessageHex 1 (getBytesD (deriveId sampleData))) (addressHex 2))
    (by
      rw [show (postVotes 1 sampleReq []).2 =
        [VoteRecord.mk (deriveId sampleData) (stringifyVal sampleData)
          (signMessageHex 1 (getBytesD (deriveId sampleData))) (addressHex 2)]
        from rfl]
      exact List.mem_cons_self _ _)

/-- C3: submitting the same payload twice yields the same identifier
both times (the identifier is the pure function `deriveId` of the
payload); the second create fails with the 409 `DUPLICATE_VOTE`
conflict — not an internal error — and the store after the failed
second create equals the store after the first. -/
theorem C3_duplicate_conflict (k : Nat) (req : CreateRequest) (s : Store)
    (hc : isCreated (postVotes k req s).1 = true) :
    postVotes k req (postVotes k req s).2 =
      (.err 409 .DUPLICATE_VOTE, (postVotes k req s).2) ∧
    ∀ d, req.data = some d → respId (postVotes k req s).1 = deriveId d := by
  obtain ⟨d, sigJ, recAddr, hd, hsg, hjt, hval, hvs, hany, heq⟩ :=
    create_success_inv k req s hc
  constructor
  · rw [heq]
    have hdup : ((s ++ [VoteRecord.mk (deriveId d) (stringifyVal d)
        (signMessageHex k (getBytesD (deriveId d))) recAddr]).any
          (fun q => q.id == deriveId d)) = true := by
      simp [List.any_append]
    simp [postVotes, hval, handleCreateVote, hd, hsg, hjt, hvs, insertVote, hdup]
  · intro d0 hd0
    rw [hd] at hd0
    injection hd0 with h
    subst h
    rw [heq]
    rfl

set_option maxRecDepth 100000 in
/-- C3 witness: a concrete duplicate submission of `sampleReq`. -/
theorem C3_witness :
    postVotes 1 sampleReq (postVotes 1 sampleReq []).2 =
      (.err 409 .DUPLICATE_VOTE, (postVotes 1 sampleReq []).2) :=
  (C3_duplicate_conflict 1 sampleReq [] (by decide)).1

/-- C4: for every payload whose create succeeds with identifier `id`,
`get(id)` succeeds and its returned `data` field is exactly the
submitted value — create followed by get round-trips through the
canonical serialization and `JSON.parse`. -/
theorem C4_create_get_roundtrip (k : Nat) (req : CreateRequest) (s : Store)
    (v : JsonValue) (hd : req.data = some v)
    (hc : isCreated (postVotes k req s).1 = true) :
    isGotVote (handleGetVote (respId (postVotes k req s).1)
      (postVotes k req s).2).1 = true ∧
    respGotData (handleGetVote (respId (postVotes k req s).1)
      (postVotes k req s).2).1 = some v := by
  obtain ⟨d, sigJ, recAddr, hd1, hsg, hjt, hval, hvs, hany, heq⟩ :=
    create_success_inv k req s hc
  rw [hd] at hd1
  injection hd1 with h
  subst h
  rw [heq]
  simp only [respId]
  have hfind : ((s ++ [VoteRecord.mk (deriveId v) (stringifyVal v)
      (signMessageHex k (getBytesD (deriveId v))) recAddr]).find?
        (fun r => r.id == deriveId v)) =
      some (VoteRecord.mk (deriveId v) (stringifyVal v)
        (signMessageHex k (getBytesD (deriveId v))) recAddr) := by
    rw [List.find?_append]
    have h1 : s.find? (fun r => r.id == deriveId v) = none :=
      List.find?_eq_none.mpr (List.any_eq_false.mp hany)
    simp [h1, List.find?]
  have hvalid : ((deriveId v).isEmpty || !isHexString32 (deriveId v)) = false := by
    rw [isHexString32_deriveId v, deriveId_shape]
    simp [List.isEmpty]
  simp only [handleGetVote, hvalid, Bool.false_eq_true, if_false, hfind,
    jsonParse_stringify v]
  simp [isGotVote, respGotData]

set_option maxRecDepth 100000 in
/-- C4 witness: the concrete create of `sampleData` followed by a get
of the returned identifier yields back `sampleData`. -/
theorem C4_witness :
    isGotVote (handleGetVote (respId (postVotes 1 sampleReq []).1)
      (postVotes 1 sampleReq []).2).1 = true ∧
    respGotData (handleGetVote (respId (postVotes 1 sampleReq []).1)
      (postVotes 1 sampleReq []).2).1 = some sampleData :=
  C4_create_get_roundtrip 1 sampleReq [] sampleData rfl (by decide)

set_option maxRecDepth 1000000 in
/-- C1 counterexample: two payloads that are equal value trees up to
object key order receive different content identifiers — the
identifier is derived from the transport-order serialization, so it is
not independent of key reordering. -/
theorem C1_counterexample :
    jsonSemEq vKeyOrder1 vKeyOrder2 = true ∧
    deriveId vKeyOrder1 ≠ deriveId vKeyOrder2 := by
  exact ⟨by decide, by decide⟩

/-- C1 (amended): the identifier is a fixed 32-byte digest (66
hex characters with the `0x` prefix), a deterministic function of the
canonical serialization — any two payloads with byte-identical
serialization receive the same identifier — but it is sensitive to
object key order. -/
theorem C1_deterministic_id (v w : JsonValue) (h : stringifyVal w = stringifyVal v) :
    (deriveId v).length = 66 ∧
    getBytes (deriveId v) = some (keccak256 (utf8Encode (stringifyVal v))) ∧
    (keccak256 (utf8Encode (stringifyVal v))).length = 32 ∧
    deriveId w = deriveId v := by
  refine ⟨deriveId_length v, getBytes_hex0x _ (keccak256_lt _), keccak256_length _, ?_⟩
  simp [deriveId, h]

/-- C1 witness: the amended determinism at a concrete payload. -/
theorem C1_witness :
    (deriveId vKeyOrder1).length = 66 ∧
    getBytes (deriveId vKeyOrder1) =
      some (keccak256 (utf8Encode (stringifyVal vKeyOrder1))) ∧
    (keccak256 (utf8Encode (stringifyVal vKeyOrder1))).length = 32 ∧
    deriveId vKeyOrder1 = deriveId vKeyOrder1 :=
  C1_deterministic_id vKeyOrder1 vKeyOrder1 rfl

/-- C5 counterexample: `list(limit=500, offset=-5)` executes with
`limit = 100` but `offset = -5`, not `offset = 0` — the offset is not
clamped below — and the negative placeholder then makes the query an
internal error rather than a clamped execution. -/
theorem C5_counterexample :
    effectiveLimit (some (("500").data)) = 100 ∧
    effectiveOffset (some (("-5").data)) = -5 ∧
    (-5 : Int) ≠ 0 ∧
    handleGetAllVotes (some (("500").data)) (some (("-5").data)) [] =
      .err 500 .INTERNAL_ERROR := by
  exact ⟨by decide, by decide, by decide, rfl⟩

/-- C5 (amended): the limit defaults to 10 when absent, unparsable or
zero and is capped above at 100, and the offset defaults to 0 when
absent, unparsable or zero — but neither is clamped below, so parsed
nonzero values (including negatives) pass through to the store
unchanged apart from the 100 cap. -/
theorem C5_pagination (ql qo : Option (List Char)) :
    (∀ n, ql.bind parseIntJS = some n → n ≠ 0 → effectiveLimit ql = min n 100) ∧
    (∀ n, qo.bind parseIntJS = some n → n ≠ 0 → effectiveOffset qo = n) ∧
    effectiveLimit ql ≤ 100 ∧
    effectiveLimit none = 10 ∧
    effectiveOffset none = 0 ∧
    (∀ s : Store, handleGetAllVotes ql qo s = .err 500 .INTERNAL_ERROR ∨
      ∃ rows, handleGetAllVotes ql qo s =
        .voteList rows (effectiveLimit ql) (effectiveOffset qo)) := by
  refine ⟨?_, ?_, min_le_right _ _, rfl, rfl, ?_⟩
  · intro n hn hnz
    simp [effectiveLimit, orDefaultJS, hn, hnz]
  · intro n hn hnz
    simp [effectiveOffset, orDefaultJS, hn, hnz]
  · intro s
    simp only [handleGetAllVotes]
    split
    · exact Or.inl rfl
    · exact Or.inr ⟨_, rfl⟩

/-- C5 witness: the amended behaviour at concrete query strings. -/
theorem C5_witness :
    effectiveLimit (some (("7").data)) = min 7 100 ∧
    effectiveOffset (some (("-5").data)) = -5 :=
  ⟨(C5_pagination (some (("7").data)) none).1 7 (by decide) (by decide),
   (C5_pagination none (some (("-5").data))).2.1 (-5) (by decide) (by decide)⟩

/-- C6 counterexample: an identifier with one uppercase hex digit does
not match the spec's lowercase-only pattern, yet the code accepts it —
the store is queried and the outcome is a 404, not `InvalidId`. -/
theorem C6_counterexample :
    specIdPattern upperHexId = false ∧
    handleGetVote upperHexId [] = (.err 404 .VOTE_NOT_FOUND, true) ∧
    (Resp.err 404 .VOTE_NOT_FOUND, true) ≠ ((Resp.err 400 .INVALID_ID : Resp), false) := by
  refine ⟨by decide, rfl, by simp⟩

/-- C6 (amended): a get identifier is accepted exactly when it is `0x`
followed by 64 hex digits of either case (`ethers.isHexString(id, 32)`);
a non-matching identifier fails with `InvalidId` before any store
access, and a matching one reaches the store. -/
theorem C6_id_validation (idp : List Char) (s : Store) :
    (isHexString32 idp = false → handleGetVote idp s = (.err 400 .INVALID_ID, false)) ∧
    (isHexString32 idp = true → (handleGetVote idp s).2 = true ∧
      (handleGetVote idp s).1 ≠ .err 400 .INVALID_ID) := by
  constructor
  · intro h
    simp [handleGetVote, h]
  · intro h
    have hne : idp.isEmpty = false := by
      cases idp with
      | nil => simp [isHexString32] at h
      | cons a t => rfl
    simp only [handleGetVote, h, hne, Bool.not_true, Bool.or_false,
      Bool.false_eq_true, if_false]
    cases hf : s.find? (fun r => r.id == idp) with
    | none => exact ⟨rfl, by simp⟩
    | some r =>
      cases hp : jsonParse r.data with
      | none => simp [hf, hp]
      | some dv => simp [hf, hp]

/-- C6 witness: a 65-character identifier (one hex digit short) fails
with `InvalidId` and no store access; the uppercase 66-character
identifier reaches the store. -/
theorem C6_witness :
    handleGetVote ('0' :: 'x' :: List.replicate 63 'a') [] =
      (.err 400 .INVALID_ID, false) ∧
    (handleGetVote upperHexId []).2 = true :=
  ⟨(C6_id_validation ('0' :: 'x' :: List.replicate 63 'a') []).1 (by decide),
   ((C6_id_validation upperHexId []).2 (by decide)).1⟩

/-- C7: when the signature recovers, verification fails with the
signer-mismatch outcome exactly when a (truthy) expected signer is
supplied that is not case-insensitively equal to the recovered
address; with no expected signer, or a matching one, verification
succeeds and returns the recovered address. -/
theorem C7_signer_mismatch (d : JsonValue) (sg : List Char) (e rec : List Char)
    (hr : verifyMessageHex (keccak256 (utf8Encode (stringifyVal d))) sg = some rec) :
    (validateSignature d (.str sg) (some (.str e)) =
      if e ≠ [] ∧ toLowerStr rec ≠ toLowerStr e then .signerMismatch rec
      else .valid rec) ∧
    validateSignature d (.str sg) none = .valid rec := by
  constructor
  · simp only [validateSignature, hr]
    cases e with
    | nil => simp [jsTruthy]
    | cons a t =>
      simp only [jsTruthy, List.isEmpty_cons, Bool.not_false, if_true]
      by_cases hEq : toLowerStr rec = toLowerStr (a :: t)
      · simp [hEq]
      · simp [hEq]
  · simp [validateSignature, hr]

set_option maxRecDepth 100000 in
/-- C7 witness: a concrete signature by the submitter key 2 checked
against the address of key 3 — a mismatch carrying the recovered
address of key 2. -/
theorem C7_witness :
    validateSignature sampleData
      (.str (signMessageHex 2 (keccak256 (utf8Encode (stringifyVal sampleData)))))
      (some (.str (addressHex 3))) =
      (if addressHex 3 ≠ [] ∧
          toLowerStr (addressHex 2) ≠ toLowerStr (addressHex 3)
       then .signerMismatch (addressHex 2) else .valid (addressHex 2)) :=
  (C7_signer_mismatch sampleData _ (addressHex 3) (addressHex 2)
    (verifyMessageHex_signMessageHex 2 _)).1

/-- C9: the standalone verify-signature route performs no persistence —
for every request and every store state, success or failure, the store
after the route equals the store before it. -/
theorem C9_verify_no_persistence (req : CreateRequest) (s : Store) :
    (verifySigRoute req s).2 = s := by
  unfold verifySigRoute handleVerifySignature
  repeat' split
  all_goals rfl

/-- C10: a create whose `data` field is absent or a falsy JSON value
(`false`, `0`, `""`, `null`) fails with `MissingData`; a truthy
non-object `data` (non-empty string, non-zero number, `true`) fails
with `InvalidDataType`; in both cases the store is untouched and
nothing is signed. -/
theorem C10_data_validation (k : Nat) (req : CreateRequest) (s : Store) :
    (jsTruthyOpt req.data = false ↔
      (req.data = none ∨ req.data = some (.bool false) ∨ req.data = some (.num 0) ∨
       req.data = some (.str []) ∨ req.data = some .null)) ∧
    (jsTruthyOpt req.data = false → postVotes k req s = (.err 400 .MISSING_DATA, s)) ∧
    (∀ d, req.data = some d → jsTruthy d = true → typeofObject d = false →
      postVotes k req s = (.err 400 .INVALID_DATA_TYPE, s)) := by
  refine ⟨?_, ?_, ?_⟩
  · cases hd : req.data with
    | none => simp [jsTruthyOpt]
    | some d =>
      cases d with
      | null => simp [jsTruthyOpt, jsTruthy]
      | bool b => cases b <;> simp [jsTruthyOpt, jsTruthy]
      | num n => simp [jsTruthyOpt, jsTruthy]
      | str cs => cases cs <;> simp [jsTruthyOpt, jsTruthy]
      | arr xs => simp [jsTruthyOpt, jsTruthy]
      | obj ms => simp [jsTruthyOpt, jsTruthy]
  · intro hf
    cases hd : req.data with
    | none => simp [postVotes, validateVoteData, hd]
    | some d =>
      rw [hd] at hf
      simp only [jsTruthyOpt] at hf
      simp [postVotes, validateVoteData, hd, hf]
  · intro d hd ht ho
    simp [postVotes, validateVoteData, hd, ht, ho]

/-- C10 witness: the two rejections at concrete requests. -/
theorem C10_witness :
    postVotes 1 ⟨some .null, none, none⟩ [] = (.err 400 .MISSING_DATA, []) ∧
    postVotes 1 ⟨some (.num 5), none, none⟩ [] = (.err 400 .INVALID_DATA_TYPE, []) :=
  ⟨(C10_data_validation 1 ⟨some .null, none, none⟩ []).2.1 (by decide),
   (C10_data_validation 1 ⟨some (.num 5), none, none⟩ []).2.2 (.num 5) rfl
     (by decide) (by decide)⟩

theorem escapeStr_replicate (c : Char) (n : Nat) (h : escChar c = [c]) :
    escapeStr (List.replicate n c) = List.replicate n c := by
  induction n with
  | zero => rfl
  | succ n ih =>
    rw [List.replicate_succ]
    rw [show escapeStr (c :: List.replicate n c) =
      escChar c ++ escapeStr (List.replicate n c) from by simp [escapeStr]]
    rw [h, ih]
    rfl

theorem jsLength_append (a b : List Char) :
    jsLength (a ++ b) = jsLength a + jsLength b := by
  simp [jsLength]

theorem jsLength_cons (c : Char) (l : List Char) :
    jsLength (c :: l) = jsCharLen c + jsLength l := by
  simp [jsLength]

theorem jsLength_nil : jsLength [] = 0 := rfl

theorem jsLength_replicate (c : Char) (n : Nat) :
    jsLength (List.replicate n c) = n * jsCharLen c := by
  induction n with
  | zero => simp [jsLength]
  | succ n ih =>
    rw [List.replicate_succ, jsLength_cons, ih]
    ring

theorem utf8Encode_cons (c : Char) (l : List Char) :
    utf8Encode (c :: l) = utf8Char c ++ utf8Encode l := by
  simp [utf8Encode]

theorem utf8Encode_nil : utf8Encode [] = [] := rfl

theorem utf8len_replicate (c : Char) (n : Nat) :
    (utf8Encode (List.replicate n c)).length = n * (utf8Char c).length := by
  induction n with
  | zero => simp [utf8Encode]
  | succ n ih =>
    rw [List.replicate_succ, utf8Encode_cons, List.length_append, ih]
    ring

theorem strObj_shape (R : List Char) :
    stringifyVal (.obj [(("a").data, .str R)]) =
      lbrace :: '"' :: 'a' :: '"' :: ':' :: '"' :: ((escapeStr R ++ ['"']) ++ [rbrace]) :=
  rfl

theorem jsLength_wide (c : Char) (n : Nat) (hesc : escChar c = [c]) :
    jsLength (stringifyVal (.obj [(("a").data, .str (List.replicate n c))])) =
      n * jsCharLen c + 8 := by
  rw [strObj_shape, escapeStr_replicate c n hesc]
  simp only [jsLength_cons, jsLength_append, jsLength_replicate, jsLength_nil]
  have h1 : jsCharLen lbrace = 1 := rfl
  have h2 : jsCharLen '"' = 1 := rfl
  have h3 : jsCharLen 'a' = 1 := rfl
  have h4 : jsCharLen ':' = 1 := rfl
  have h6 : jsCharLen rbrace = 1 := rfl
  rw [h1, h2, h3, h4, h6]
  omega

theorem utf8len_wide (c : Char) (n : Nat) (hesc : escChar c = [c]) :
    (utf8Encode (stringifyVal (.obj [(("a").data, .str (List.replicate n c))]))).length =
      n * (utf8Char c).length + 8 := by
  rw [strObj_shape, escapeStr_replicate c n hesc]
  simp only [utf8Encode_cons, utf8Encode_nil,
    show ∀ a b : List Char, utf8Encode (a ++ b) = utf8Encode a ++ utf8Encode b from
      fun a b => by simp [utf8Encode],
    List.length_append, utf8len_replicate]
  have h1 : (utf8Char lbrace).length = 1 := rfl
  have h2 : (utf8Char '"').length = 1 := rfl
  have h3 : (utf8Char 'a').length = 1 := rfl
  have h4 : (utf8Char ':').length = 1 := rfl
  have h6 : (utf8Char rbrace).length = 1 := rfl
  rw [h1, h2, h3, h4, h6]
  simp only [List.length_nil]
  omega

theorem wideStr_utf8_length :
    (utf8Encode (stringifyVal wideStr)).length = 1000008 := by
  rw [show wideStr = JsonValue.obj [(("a").data, .str (List.replicate 500000 'é'))]
    from rfl]
  rw [utf8len_wide 'é' 500000 rfl]
  rw [show (utf8Char 'é').length = 2 from rfl]

theorem wideStr_jsLength : jsLength (stringifyVal wideStr) = 500008 := by
  rw [show wideStr = JsonValue.obj [(("a").data, .str (List.replicate 500000 'é'))]
    from rfl]
  rw [jsLength_wide 'é' 500000 rfl]
  rw [show jsCharLen 'é' = 1 from rfl]

theorem bigStr_jsLength : jsLength (stringifyVal bigStr) = 1000009 := by
  rw [show bigStr = JsonValue.obj [(("a").data, .str (List.replicate 1000001 'x'))]
    from rfl]
  rw [jsLength_wide 'x' 1000001 rfl]
  rw [show jsCharLen 'x' = 1 from rfl]

/-- C8 counterexample: a payload whose canonical UTF-8 encoding is
1,000,008 bytes — beyond the limit — passes the size check, because
the code measures JavaScript string length (UTF-16 code units), which
here is only 500,008. -/
theorem C8_counterexample :
    1000000 < (utf8Encode (stringifyVal wideStr)).length ∧
    validateVoteDataV1 (some wideStr) = none := by
  constructor
  · rw [wideStr_utf8_length]
    omega
  · simp only [validateVoteDataV1]
    rw [show jsTruthy wideStr = true from rfl,
      show typeofObject wideStr = true from rfl, wideStr_jsLength]
    simp

/-- C8 (amended): the size check compares the serialized string's
UTF-16 length, not its UTF-8 byte count, against 1,000,000: a payload
whose serialized length exceeds the limit fails with `DataTooLarge`
before any signing or persistence, and one at or below the limit
passes the size check. -/
theorem C8_size_check (d : JsonValue) (s : Store) (k : Nat)
    (ht : jsTruthy d = true) (ho : typeofObject d = true) :
    (1000000 < jsLength (stringifyVal d) →
      postVotesV1 k (some d) s = (.err 400 .DATA_TOO_LARGE, s)) ∧
    (jsLength (stringifyVal d) ≤ 1000000 → validateVoteDataV1 (some d) = none) := by
  constructor
  · intro hbig
    simp [postVotesV1, validateVoteDataV1, ht, ho, hbig]
  · intro hsmall
    simp [validateVoteDataV1, ht, ho, Nat.not_lt.mpr hsmall]

/-- C8 witness: a payload of serialized length 1,000,009 is rejected
as too large with the store untouched; the empty object passes the
size check. -/
theorem C8_witness :
    postVotesV1 1 (some bigStr) [] = (.err 400 .DATA_TOO_LARGE, []) ∧
    validateVoteDataV1 (some (.obj [])) = none :=
  ⟨(C8_size_check bigStr [] 1 rfl rfl).1 (by rw [bigStr_jsLength]; omega),
   (C8_size_check (.obj []) [] 1 rfl rfl).2 (by decide)⟩

end VoteOp
